import Mathlib

/-!
Shallow embedding of the data-cleaning pipeline in
DATA/pipeline_data/fonctions_utiles.py/clean.py.

Modelling conventions:
* A pandas cell is either missing (NaN/None), a number, or a text value.
  Numbers are modelled by exact rationals; the pipeline only compares,
  averages and divides them, so the rational model captures the program's
  arithmetic exactly.
* A pandas Series carries a dtype; a numeric-dtype series is expected to
  hold only numeric or missing cells (seriesWF below).
* Means over an empty series, and medians of an empty value list, are NaN
  in pandas; NaN is modelled as Option.none.  The comparisons performed
  by the code on possibly-NaN rates follow IEEE semantics: every ordered
  comparison with NaN is false (optRateGT, optRateLE, optRateEqZero).
* A DataFrame is an ordered association list of (column name, series);
  Python dict iteration order is insertion order, matched by the list
  order.  Exceptions become the Except monad.
-/

set_option autoImplicit false

namespace Clean

/-- One cell of a table: missing, numeric, or text. -/
inductive Cell where
  | na : Cell
  | num : ℚ → Cell
  | str : String → Cell
deriving DecidableEq, Repr

/-- Dtype of a pandas Series: numeric or object (text/mixed). -/
inductive Dtype where
  | numeric : Dtype
  | obj : Dtype
deriving DecidableEq, Repr

/-- Test for a missing cell, mirroring pandas isna on one cell. -/
def Cell.isna : Cell → Bool
  | .na => true
  | _ => false

/-- A pandas Series: a dtype together with the list of cells. -/
structure Series where
  dtype : Dtype
  cells : List Cell
deriving DecidableEq, Repr

/-- Test for a numeric cell. -/
def Cell.isNum : Cell → Bool
  | .num _ => true
  | _ => false

/-- Well-formedness of a series: a numeric-dtype series holds only
numeric or missing cells (pandas guarantees this for numeric dtypes). -/
def seriesWF (s : Series) : Bool :=
  s.dtype != .numeric || s.cells.all (fun c => c.isna || c.isNum)

/-- A DataFrame: ordered association list of named columns. -/
structure DataFrame where
  cols : List (String × Series)
deriving DecidableEq, Repr

/-- Number of missing cells of a series (isna().sum()). -/
def nMissing (s : Series) : ℕ := s.cells.countP (fun c => c.isna)

/-- Missing rate of one column: isna().mean().  pandas mean of an empty
series is NaN, modelled by none; otherwise the exact fraction. -/
def missingRate (s : Series) : Option ℚ :=
  if s.cells.length = 0 then none
  else some ((s.cells.countP (fun c => c.isna) : ℚ) / (s.cells.length : ℚ))

/-- Embedding of compute_missing_rates: per column, the missing rate. -/
def compute_missing_rates (df : DataFrame) : List (String × Option ℚ) :=
  df.cols.map (fun p => (p.1, missingRate p.2))

/-- Comparison rate > t on a possibly-NaN rate (NaN compares false). -/
def optRateGT (r : Option ℚ) (t : ℚ) : Bool :=
  match r with
  | none => false
  | some q => decide (t < q)

/-- Comparison rate ≤ t on a possibly-NaN rate (NaN compares false). -/
def optRateLE (r : Option ℚ) (t : ℚ) : Bool :=
  match r with
  | none => false
  | some q => decide (q ≤ t)

/-- Comparison rate == 0 on a possibly-NaN rate (NaN compares false). -/
def optRateEqZero (r : Option ℚ) : Bool :=
  match r with
  | none => false
  | some q => decide (q = 0)

/-- Numeric values of a cell list, skipping missing (and any non-numeric)
cells, as pandas numeric aggregations do. -/
def numVals (cells : List Cell) : List ℚ :=
  cells.filterMap (fun c => match c with | .num q => some q | _ => none)

/-- Non-missing cells of a cell list (Series.dropna). -/
def dropNa (cells : List Cell) : List Cell :=
  cells.filter (fun c => !c.isna)

/-- Median of a list of rationals, as pandas Series.median computes it:
sort, take the middle element (odd length) or the average of the two
middle elements (even length); NaN (none) on the empty list. -/
def medianQ (xs : List ℚ) : Option ℚ :=
  let ys := List.insertionSort (fun a b : ℚ => a ≤ b) xs
  let n := ys.length
  if n = 0 then none
  else if n % 2 = 1 then some (ys.getD (n / 2) 0)
  else some ((ys.getD (n / 2 - 1) 0 + ys.getD (n / 2) 0) / 2)

/-- Mean of a list of rationals, as pandas Series.mean computes it over
the non-missing values; NaN (none) on the empty list. -/
def meanQ (xs : List ℚ) : Option ℚ :=
  if xs.length = 0 then none
  else some (xs.sum / (xs.length : ℚ))

/-- fillna with a possibly-NaN numeric fill: filling with NaN leaves the
series unchanged (pandas fillna(nan) fills nothing); otherwise every
missing cell becomes the fill value. -/
def fillNaNum (cells : List Cell) (fill : Option ℚ) : List Cell :=
  match fill with
  | none => cells
  | some q => cells.map (fun c => if c.isna then .num q else c)

/-- Total order on cells used to sort mode candidates (pandas
Series.mode returns the most frequent values sorted ascending; on the
homogeneous columns the pipeline produces this matches Python sorting,
with a fixed constructor order covering the heterogeneous fallback). -/
def cellLE : Cell → Cell → Bool
  | .na, _ => true
  | .num _, .na => false
  | .num a, .num b => decide (a ≤ b)
  | .num _, .str _ => true
  | .str _, .na => false
  | .str _, .num _ => false
  | .str a, .str b => decide (a ≤ b)

/-- Candidates for the mode: the distinct non-missing cells attaining
the maximal occurrence count among non-missing cells. -/
def modeCandidates (cells : List Cell) : List Cell :=
  let d := dropNa cells
  let m := (d.map (fun c => d.count c)).foldr max 0
  d.dedup.filter (fun c => d.count c = m)

/-- Embedding of Series.mode().iloc[0]: the least mode candidate. -/
def modeCell (cells : List Cell) : Option Cell :=
  (List.insertionSort (fun a b => cellLE a b = true) (modeCandidates cells)).head?

/-- Python str() of a cell, used for the fill_value field and for
astype(str).  Rationals are rendered by their canonical Lean string; the
pipeline never branches on this rendering. -/
def cellPyStr : Cell → String
  | .na => "nan"
  | .num q => toString q
  | .str t => t

/-- astype(str) on one cell: every cell becomes its text rendering. -/
def cellAstype (c : Cell) : Cell := .str (cellPyStr c)

/-- String label of a dtype, as str(series.dtype) produces it. -/
def dtypeStr : Dtype → String
  | .numeric => "float64"
  | .obj => "object"

/-- Typed fill value recorded in the info dict: float(fill) on the
numeric path (possibly NaN, i.e. none) or str(fill) on the categorical
path. -/
inductive FillVal where
  | fnum : Option ℚ → FillVal
  | fstr : String → FillVal
deriving DecidableEq, Repr

/-- The info dictionary returned by impute_column. -/
structure ImputeInfo where
  dtype : String
  strategy : String
  n_missing_before : ℕ
  fill_value : FillVal
  n_missing_after : ℕ
deriving DecidableEq, Repr

/-- Embedding of impute_column.  The numeric path picks a fill by
strategy (median / mean / constant 0), fillna's with it and records the
info; the categorical path picks mode-or-"missing" / "missing", fillna's
and applies astype(str); an unknown strategy raises ValueError, modelled
as Except.error with the message. -/
def impute_column (series : Series) (strategy : String) :
    Except String (Series × ImputeInfo) :=
  let nBefore := series.cells.countP (fun c => c.isna)
  if series.dtype = .numeric then
    if strategy = "median" ∨ strategy = "mean" ∨ strategy = "constant" then
      let fill : Option ℚ :=
        if strategy = "median" then medianQ (numVals series.cells)
        else if strategy = "mean" then meanQ (numVals series.cells)
        else some 0
      let cells2 := fillNaNum series.cells fill
      .ok (⟨.numeric, cells2⟩,
        ⟨dtypeStr series.dtype, strategy, nBefore, .fnum fill,
          cells2.countP (fun c => c.isna)⟩)
    else .error ("Unknown numeric strategy: " ++ strategy)
  else
    if strategy = "mode" ∨ strategy = "constant" then
      let fill : Cell :=
        if strategy = "mode" then
          if dropNa series.cells = [] then .str "missing"
          else match modeCell series.cells with
            | some m => m
            | none => .str "missing"
        else .str "missing"
      let cells2 :=
        (series.cells.map (fun c => if c.isna then fill else c)).map cellAstype
      .ok (⟨.obj, cells2⟩,
        ⟨dtypeStr series.dtype, strategy, nBefore, .fstr (cellPyStr fill),
          cells2.countP (fun c => c.isna)⟩)
    else .error ("Unknown categorical strategy: " ++ strategy)

/-- One entry of the imputation_info report.  Python builds these as
dicts with varying key sets; each possible key is an optional field, and
the dropped_constant flag defaults to absent (false). -/
structure Record where
  dtype : Option String := none
  strategy : Option String := none
  n_missing_before : Option ℕ := none
  n_missing_after : Option ℕ := none
  fill_value : Option FillVal := none
  note : Option String := none
  dropped_constant : Bool := false
deriving DecidableEq, Repr

/-- The imputation_info report: a Python dict from column name to entry,
modelled as an insertion-ordered association list. -/
abbrev Report := List (String × Record)

/-- Record produced from an impute_column info dict. -/
def infoToRecord (info : ImputeInfo) : Record :=
  { dtype := some info.dtype, strategy := some info.strategy,
    n_missing_before := some info.n_missing_before,
    n_missing_after := some info.n_missing_after,
    fill_value := some info.fill_value }

/-- Dict assignment rep[c] = r: overwrite in place when the key exists,
append otherwise (Python dicts keep the original key position). -/
def setEntry (rep : Report) (c : String) (r : Record) : Report :=
  if rep.any (fun p => p.1 = c) then
    rep.map (fun p => if p.1 = c then (c, r) else p)
  else rep ++ [(c, r)]

/-- Dict lookup rep.get(c): the entry at key c, if present. -/
def getEntry (rep : Report) (c : String) : Option Record :=
  (rep.find? (fun p => p.1 = c)).map (fun p => p.2)

/-- Column lookup df[c]: the first column named c, if present. -/
def getCol (df : DataFrame) (c : String) : Option Series :=
  (df.cols.find? (fun p => p.1 = c)).map (fun p => p.2)

/-- Column assignment df[c] = s, replacing the named column in place. -/
def setCol (df : DataFrame) (c : String) (s : Series) : DataFrame :=
  ⟨df.cols.map (fun p => if p.1 = c then (c, s) else p)⟩

/-- Names of the columns of a DataFrame. -/
def colNames (df : DataFrame) : List String := df.cols.map (fun p => p.1)

/-- Errors of handle_missing_values: the structured TooManyMissingError
with its cols_too_many payload, or a propagated ValueError raised by
impute_column on an unknown strategy. -/
inductive CleanError where
  | tooManyMissing : List (String × ℚ) → CleanError
  | valueError : String → CleanError
deriving DecidableEq, Repr

/-- The cols_exceed filter of handle_missing_values: columns whose rate
is strictly above the threshold (NaN rates compare false). -/
def colsExceed (df : DataFrame) (threshold : ℚ) : List (String × ℚ) :=
  (compute_missing_rates df).filterMap (fun e =>
    match e.2 with
    | some q => if threshold < q then some (e.1, q) else none
    | none => none)

/-- Report entry recorded for a column with no missing values. -/
def noopRecord : Record :=
  { n_missing_before := some 0, n_missing_after := some 0, strategy := some "none" }

/-- Report entry recorded in the defensive exceeds-threshold branch of
the loop (unreachable for real rates, which raise beforehand). -/
def exceedRecord (series : Series) : Record :=
  { n_missing_before := some (nMissing series), note := some "exceeds_threshold" }

/-- One iteration of the imputation loop of handle_missing_values, for
the column col with precomputed rate: rate == 0 records a no-op entry;
0 < rate ≤ threshold imputes by the dtype-selected strategy and stores
the column back; otherwise an exceeds_threshold entry is recorded.  A
missing column name raises KeyError, a bad strategy ValueError. -/
def processCol (t : ℚ) (ns cs : String)
    (acc : DataFrame × Report) (col : String) (rate : Option ℚ) :
    Except String (DataFrame × Report) :=
  let df := acc.1
  let rep := acc.2
  if optRateEqZero rate then
    .ok (df, setEntry rep col noopRecord)
  else if optRateLE rate t then
    match getCol df col with
    | none => .error ("KeyError: " ++ col)
    | some series =>
      let strat := if series.dtype = .numeric then ns else cs
      match impute_column series strat with
      | .error e => .error e
      | .ok (s2, info) => .ok (setCol df col s2, setEntry rep col (infoToRecord info))
  else
    match getCol df col with
    | none => .error ("KeyError: " ++ col)
    | some series =>
      .ok (df, setEntry rep col (exceedRecord series))

/-- The whole imputation loop over the precomputed missing-rate map: a
for loop threading the table and the report, with exceptions propagating
out of the loop at once. -/
def imputeAll (t : ℚ) (ns cs : String) :
    DataFrame × Report → List (String × Option ℚ) →
    Except String (DataFrame × Report)
  | acc, [] => .ok acc
  | acc, e :: rest =>
    match processCol t ns cs acc e.1 e.2 with
    | .error err => .error err
    | .ok acc2 => imputeAll t ns cs acc2 rest

/-- Number of distinct non-missing values: Series.nunique(dropna=True). -/
def nuniqueDropna (s : Series) : ℕ := (dropNa s.cells).dedup.length

/-- Loop body of the constant-column pruning: drop each listed column
from the table and mark (or create) its report entry with
dropped_constant = true. -/
def dropConstLoop : DataFrame × Report → List String → DataFrame × Report
  | acc, [] => acc
  | acc, c :: rest =>
    dropConstLoop
      (⟨acc.1.cols.filter (fun p => ¬ p.1 = c)⟩,
        setEntry acc.2 c { (getEntry acc.2 c).getD {} with dropped_constant := true })
      rest

/-- The constant-column pruning step: the columns with at most one
distinct non-missing value are dropped, one by one, each marking (or
creating) its report entry with dropped_constant = true. -/
def dropConstantStep (df : DataFrame) (rep : Report) : DataFrame × Report :=
  dropConstLoop (df, rep)
    ((df.cols.filter (fun p => nuniqueDropna p.2 ≤ 1)).map (fun p => p.1))

/-- Embedding of handle_missing_values: compute the missing rates, raise
TooManyMissingError when any column strictly exceeds the threshold,
otherwise run the per-column imputation loop and, when allowed, the
constant-column pruning, returning the new table and the report. -/
def handle_missing_values (df : DataFrame) (threshold : ℚ)
    (numeric_strategy categorical_strategy : String)
    (allow_drop_constant : Bool) :
    Except CleanError (DataFrame × Report) :=
  let missing_rates := compute_missing_rates df
  let cols_exceed := colsExceed df threshold
  if cols_exceed ≠ [] then .error (.tooManyMissing cols_exceed)
  else
    match imputeAll threshold numeric_strategy categorical_strategy
        (df, ([] : Report)) missing_rates with
    | .error e => .error (.valueError e)
    | .ok (df2, rep) =>
      if allow_drop_constant then .ok (dropConstantStep df2 rep)
      else .ok (df2, rep)

/-- Python str.strip on a character list: drop leading and trailing
whitespace. -/
def stripChars (l : List Char) : List Char :=
  ((l.dropWhile Char.isWhitespace).reverse.dropWhile Char.isWhitespace).reverse

/-- Column-name normalization str(c).strip().lower().replace(" ", "_")
at the character-list level. -/
def normNameL (l : List Char) : List Char :=
  ((stripChars l).map Char.toLower).map (fun c => if c = ' ' then '_' else c)

/-- Column-name normalization on strings. -/
def normName (s : String) : String := ⟨normNameL s.data⟩

/-- Parse of an unsigned digit run as a natural number. -/
def parseDigits (l : List Char) : Option ℕ :=
  if l ≠ [] ∧ l.all Char.isDigit then
    some (l.foldl (fun n c => 10 * n + (c.toNat - 48)) 0)
  else none

/-- Numeric parse used by the to_numeric coercion: optional sign, then
either a digit run or a decimal point with digits on at least one side.
Exponent forms and special float spellings are not produced by this
dataset's coercion path and are not modelled. -/
def parseNum (s : String) : Option ℚ :=
  let l := s.data
  let signAndRest : ℚ × List Char :=
    match l with
    | '-' :: rest => (-1, rest)
    | '+' :: rest => (1, rest)
    | _ => (1, l)
  let sign := signAndRest.1
  let body := signAndRest.2
  match body.splitOn '.' with
  | [ds] =>
    match parseDigits ds with
    | some n => some (sign * (n : ℚ))
    | none => none
  | [ds, fs] =>
    if ds = [] ∧ fs = [] then none
    else if (ds = [] ∨ (ds.all Char.isDigit)) ∧ (fs = [] ∨ (fs.all Char.isDigit)) ∧
        (ds ≠ [] ∨ fs ≠ []) then
      let ip : ℕ := (parseDigits ds).getD 0
      let fp : ℕ := (parseDigits fs).getD 0
      some (sign * ((ip : ℚ) + (fp : ℚ) / ((10 : ℚ) ^ fs.length)))
    else none
  | _ => none

/-- Coercion of one cell by pd.to_numeric(col.str.replace(",", "")
.str.strip(), errors="coerce"): the .str accessor maps non-text cells to
NaN; text cells have commas removed and are stripped, then parsed, an
unparsable value becoming NaN. -/
def coerceCell : Cell → Cell
  | .str s =>
    match parseNum ⟨stripChars (s.data.filter (fun c => ¬ c = ','))⟩ with
    | some q => .num q
    | none => .na
  | _ => .na

/-- The numeric-coercion step on one column: only object columns are
tried; the coerced column replaces the original when the non-missing
ratio of the coercion is at least 0.5 (the mean of an empty column is
NaN, which compares false, so empty columns are kept). -/
def tryCoerce (s : Series) : Series :=
  if s.dtype = .obj then
    let converted := s.cells.map coerceCell
    if converted.length ≠ 0 ∧
        converted.length ≤ 2 * converted.countP (fun c => !c.isna) then
      ⟨.numeric, converted⟩
    else s
  else s

/-- Row count of a DataFrame (len(df)): the length of its first column;
the embedding is used on tables whose columns all share this length. -/
def nRows (df : DataFrame) : ℕ :=
  match df.cols with
  | [] => 0
  | p :: _ => p.2.cells.length

/-- Row i of a DataFrame, as the list of its cells across columns. -/
def rowAt (df : DataFrame) (i : ℕ) : List Cell :=
  df.cols.map (fun p => p.2.cells.getD i .na)

/-- Indices of the rows kept by drop_duplicates: the first occurrence
of each distinct row, in order. -/
def keptRows (df : DataFrame) : List ℕ :=
  (List.range (nRows df)).filter
    (fun i => (List.range i).all (fun j => decide (¬ rowAt df j = rowAt df i)))

/-- The drop_duplicates().reset_index(drop=True) step: keep the first
occurrence of each distinct row, in stable order. -/
def dropDupRows (df : DataFrame) : DataFrame :=
  let idx := keptRows df
  ⟨df.cols.map (fun p =>
    (p.1, ⟨p.2.dtype, idx.map (fun i => p.2.cells.getD i .na)⟩))⟩

/-- Embedding of initial_cleaning: normalize the column names, drop the
fully-empty columns (isna().all() is true on an empty column, so a
zero-row table loses all its columns), try numeric coercion on each
object column, then drop exact duplicate rows. -/
def initial_cleaning (df : DataFrame) : DataFrame :=
  let df1 : DataFrame := ⟨df.cols.map (fun p => (normName p.1, p.2))⟩
  let df2 : DataFrame := ⟨df1.cols.filter (fun p => !(p.2.cells.all Cell.isna))⟩
  let df3 : DataFrame := ⟨df2.cols.map (fun p => (p.1, tryCoerce p.2))⟩
  dropDupRows df3

/-! ### Generic helper lemmas -/

theorem map_self_of {α : Type} {l : List α} {f : α → α}
    (h : ∀ x ∈ l, f x = x) : l.map f = l := by
  have h2 : l.map f = l.map id := List.map_eq_map_iff.mpr h
  simpa using h2

theorem length_ne_zero_of_ne_nil {α : Type} {l : List α} (h : l ≠ []) :
    l.length ≠ 0 := by
  intro h0
  exact h (List.length_eq_zero.mp h0)

/-! ### Claim C4: missing rates -/

/-- Claim C4, counterexample: the claim asserts that compute_missing_rates
yields a value in the unit interval for every column of every table, with
exactly 0.0 for a column with no missing cells, including tables with
zero rows.  On a zero-row table the code computes isna().mean() of an
empty series, which is NaN (modelled none): no rational rate at all is
returned, and in particular not 0.0. -/
theorem missing_rate_zero_rows_nan :
    compute_missing_rates ⟨[("a", ⟨Dtype.numeric, []⟩)]⟩ = [("a", (none : Option ℚ))] ∧
    ("a", some (0 : ℚ)) ∉ compute_missing_rates ⟨[("a", ⟨Dtype.numeric, []⟩)]⟩ := by
  constructor
  · rfl
  · decide

/-- Claim C4 (amended to columns with at least one row): for every table
and every column holding at least one cell, compute_missing_rates maps
the column to the exact fraction of missing cells, a value in the unit
interval, and a column with no missing cells yields exactly 0. -/
theorem missing_rates_in_unit_interval (df : DataFrame) (c : String) (s : Series)
    (hmem : (c, s) ∈ df.cols) (hne : s.cells ≠ []) :
    ∃ q : ℚ, (c, some q) ∈ compute_missing_rates df ∧
      q = (s.cells.countP (fun x => x.isna) : ℚ) / (s.cells.length : ℚ) ∧
      0 ≤ q ∧ q ≤ 1 ∧
      (s.cells.countP (fun x => x.isna) = 0 → q = 0) := by
  have hlen : s.cells.length ≠ 0 := length_ne_zero_of_ne_nil hne
  have hlenq : (0 : ℚ) < (s.cells.length : ℚ) := by
    exact_mod_cast Nat.pos_of_ne_zero hlen
  have hrate : missingRate s =
      some ((s.cells.countP (fun x => x.isna) : ℚ) / (s.cells.length : ℚ)) := by
    unfold missingRate
    rw [if_neg hlen]
  have hcr : compute_missing_rates df = df.cols.map (fun p => (p.1, missingRate p.2)) := rfl
  refine ⟨_, ?_, rfl, ?_, ?_, ?_⟩
  · rw [hcr]
    exact List.mem_map.mpr ⟨(c, s), hmem, by simp [hrate]⟩
  · apply div_nonneg
    · exact_mod_cast Nat.zero_le _
    · exact le_of_lt hlenq
  · rw [div_le_one hlenq]
    exact_mod_cast List.countP_le_length _
  · intro h0
    rw [h0]
    simp

/-- Witness for the amended claim C4 at a one-column table with cells
[1, NaN]: the rate exists and satisfies the stated bounds. -/
theorem missing_rates_in_unit_interval_witness :
    ∃ q : ℚ,
      ("a", some q) ∈ compute_missing_rates
        ⟨[("a", ⟨Dtype.numeric, [Cell.num 1, Cell.na]⟩)]⟩ ∧
      q = (([Cell.num 1, Cell.na].countP (fun x => x.isna) : ℚ) /
        (([Cell.num 1, Cell.na] : List Cell).length : ℚ)) ∧
      0 ≤ q ∧ q ≤ 1 ∧
      (([Cell.num 1, Cell.na] : List Cell).countP (fun x => x.isna) = 0 → q = 0) :=
  missing_rates_in_unit_interval ⟨[("a", ⟨Dtype.numeric, [Cell.num 1, Cell.na]⟩)]⟩
    "a" ⟨Dtype.numeric, [Cell.num 1, Cell.na]⟩ (by decide) (by decide)

/-! ### Claim C8: invalid strategies -/

/-- Claim C8: impute_column fails with the unknown-strategy ValueError
exactly when the strategy is unrecognized for the column's dtype: on a
numeric column any strategy other than median, mean, constant, and on a
categorical column any strategy other than mode, constant.  The input
column itself is never modified (the embedding is functional and the
error carries no column). -/
theorem impute_column_invalid_strategy_iff (s : Series) (strat : String) :
    (∃ e, impute_column s strat = .error e) ↔
      ((s.dtype = .numeric ∧ strat ≠ "median" ∧ strat ≠ "mean" ∧ strat ≠ "constant") ∨
        (s.dtype = .obj ∧ strat ≠ "mode" ∧ strat ≠ "constant")) := by
  cases hd : s.dtype
  case numeric =>
    by_cases h : strat = "median" ∨ strat = "mean" ∨ strat = "constant"
    · constructor
      · rintro ⟨e, he⟩
        simp [impute_column, hd, h] at he
      · rintro (⟨_, h1, h2, h3⟩ | ⟨hobj, _, _⟩)
        · exact absurd h (by tauto)
        · exact absurd hobj (by decide)
    · constructor
      · intro _
        refine Or.inl ⟨rfl, ?_, ?_, ?_⟩ <;> (intro hc; exact h (by tauto))
      · intro _
        exact ⟨"Unknown numeric strategy: " ++ strat, by simp [impute_column, hd, h]⟩
  case obj =>
    by_cases h : strat = "mode" ∨ strat = "constant"
    · constructor
      · rintro ⟨e, he⟩
        simp [impute_column, hd, h] at he
      · rintro (⟨hnum, _, _, _⟩ | ⟨_, h1, h2⟩)
        · exact absurd hnum (by decide)
        · exact absurd h (by tauto)
    · constructor
      · intro _
        refine Or.inr ⟨rfl, ?_, ?_⟩ <;> (intro hc; exact h (by tauto))
      · intro _
        exact ⟨"Unknown categorical strategy: " ++ strat, by simp [impute_column, hd, h]⟩

/-! ### Claim C6: median imputation -/

/-- Claim C6: on a numeric column with strategy "median", impute_column
fills every missing cell with the column median m of the non-missing
values (medianQ over numVals is the embedding of Series.median, which
ignores missing cells), leaves the other cells unchanged, and records
n_missing_after = 0.  The witness instantiates the spec's example
[1, NaN, 3, NaN, 5], where m = 3. -/
theorem impute_median_fills (s : Series) (m : ℚ)
    (hdt : s.dtype = Dtype.numeric)
    (hm : medianQ (numVals s.cells) = some m) :
    impute_column s "median" =
      .ok (⟨Dtype.numeric, s.cells.map (fun c => if c.isna then Cell.num m else c)⟩,
        ⟨"float64", "median", s.cells.countP (fun c => c.isna), .fnum (some m), 0⟩) := by
  have hcount : (s.cells.map (fun c => if c.isna then Cell.num m else c)).countP
      (fun c => c.isna) = 0 := by
    rw [List.countP_eq_zero]
    intro a ha
    rcases List.mem_map.mp ha with ⟨b, hb, rfl⟩
    cases b <;> simp [Cell.isna]
  simp [impute_column, hdt, hm, fillNaNum, hcount, dtypeStr]

/-- Witness for claim C6 at the spec's example column [1, NaN, 3, NaN, 5]:
the two missing cells become 3 (the median of 1, 3, 5) and the recorded
n_missing_after is 0. -/
theorem impute_median_fills_witness :
    impute_column ⟨Dtype.numeric,
        [Cell.num 1, Cell.na, Cell.num 3, Cell.na, Cell.num 5]⟩ "median" =
      .ok (⟨Dtype.numeric,
          [Cell.num 1, Cell.num 3, Cell.num 3, Cell.num 3, Cell.num 5]⟩,
        ⟨"float64", "median", 2, .fnum (some 3), 0⟩) :=
  (impute_median_fills
    ⟨Dtype.numeric, [Cell.num 1, Cell.na, Cell.num 3, Cell.na, Cell.num 5]⟩
    3 rfl (by decide)).trans (by rfl)

/-! ### Claim C10: entirely missing numeric column -/

/-- Claim C10: for a numeric column all of whose cells are missing,
impute_column with strategy median or mean computes a missing fill value
(Series.median and Series.mean of an all-missing column are NaN, and
fillna(NaN) fills nothing), leaves every cell missing, and records
n_missing_after = n_missing_before = the column length.  The second
conjunct shows the edge case is reachable through handle_missing_values:
with a threshold of at least 1 the all-missing column passes the gate
(rate 1 ≤ threshold), is "imputed", and is returned still all-missing
when constant-column pruning is off. -/
theorem impute_all_missing_silent_noop (s : Series) (strat : String)
    (hdt : s.dtype = Dtype.numeric)
    (hall : ∀ c ∈ s.cells, c.isna = true)
    (hstrat : strat = "median" ∨ strat = "mean") :
    (impute_column s strat =
      .ok (⟨Dtype.numeric, s.cells⟩,
        ⟨"float64", strat, s.cells.length, .fnum none, s.cells.length⟩)) ∧
    (∀ (t : ℚ) (cs c : String), 1 ≤ t → s.cells ≠ [] →
      handle_missing_values ⟨[(c, s)]⟩ t "median" cs false =
        .ok (⟨[(c, ⟨Dtype.numeric, s.cells⟩)]⟩,
          [(c, infoToRecord
            ⟨"float64", "median", s.cells.length, .fnum none, s.cells.length⟩)])) := by
  have hnv : numVals s.cells = [] := by
    rw [numVals, List.filterMap_eq_nil_iff]
    intro a ha
    have := hall a ha
    cases a <;> simp_all [Cell.isna]
  have hcount : s.cells.countP (fun c => c.isna) = s.cells.length :=
    List.countP_eq_length.mpr hall
  have key : ∀ st : String, (st = "median" ∨ st = "mean") →
      impute_column s st =
        .ok (⟨Dtype.numeric, s.cells⟩,
          ⟨"float64", st, s.cells.length, .fnum none, s.cells.length⟩) := by
    intro st hst
    rcases hst with rfl | rfl <;>
      simp [impute_column, hdt, hnv, medianQ, meanQ, fillNaNum, hcount, dtypeStr]
  refine ⟨key strat hstrat, ?_⟩
  intro t cs c h1t hne
  have hlen : s.cells.length ≠ 0 := length_ne_zero_of_ne_nil hne
  have hr : missingRate s = some 1 := by
    unfold missingRate
    rw [if_neg hlen, hcount]
    congr 1
    exact div_self (by exact_mod_cast hlen)
  have hnlt : ¬ t < 1 := not_lt.mpr h1t
  simp [handle_missing_values, compute_missing_rates, colsExceed, hr,
    imputeAll, processCol, optRateEqZero, optRateLE, getCol, setCol, setEntry,
    hnlt, h1t, hdt, key "median" (Or.inl rfl), List.find?]

/-! ### Lookup and update lemmas for columns and report entries -/

theorem getCol_cons (p : String × Series) (l : List (String × Series)) (c : String) :
    getCol ⟨p :: l⟩ c = if p.1 = c then some p.2 else getCol ⟨l⟩ c := by
  by_cases h : p.1 = c <;> simp [getCol, List.find?, h]

theorem getEntry_cons (p : String × Record) (l : Report) (c : String) :
    getEntry (p :: l) c = if p.1 = c then some p.2 else getEntry l c := by
  by_cases h : p.1 = c <;> simp [getEntry, List.find?, h]

theorem getCol_nil (c : String) : getCol ⟨[]⟩ c = none := rfl

theorem getCol_of_mem_nodup {df : DataFrame} {c : String} {s : Series}
    (hnd : (colNames df).Nodup) (hmem : (c, s) ∈ df.cols) :
    getCol df c = some s := by
  rcases df with ⟨l⟩
  induction l with
  | nil => cases hmem
  | cons p l ih =>
    rw [getCol_cons]
    rcases List.mem_cons.mp hmem with rfl | htail
    · rw [if_pos rfl]
    · have hnd2 := (List.nodup_cons.mp hnd)
      by_cases hp : p.1 = c
      · exfalso
        refine hnd2.1 ?_
        have hmm : p.1 ∈ List.map (fun q => q.1) l := by
          rw [hp]
          exact List.mem_map.mpr ⟨(c, s), htail, rfl⟩
        exact hmm
      · rw [if_neg hp]
        exact ih hnd2.2 htail

theorem mem_unique_of_nodup {df : DataFrame} {c : String} {s s' : Series}
    (hnd : (colNames df).Nodup) (h1 : (c, s) ∈ df.cols) (h2 : (c, s') ∈ df.cols) :
    s = s' := by
  have e1 := getCol_of_mem_nodup hnd h1
  have e2 := getCol_of_mem_nodup hnd h2
  rw [e1] at e2
  exact Option.some.inj e2

theorem setCol_getCol_ne {df : DataFrame} {a b : String} {s : Series}
    (h : a ≠ b) : getCol (setCol df a s) b = getCol df b := by
  rcases df with ⟨l⟩
  induction l with
  | nil => rfl
  | cons p l ih =>
    show getCol ⟨(if p.1 = a then (a, s) else p) :: _⟩ b = _
    rw [getCol_cons, getCol_cons]
    by_cases hp : p.1 = a
    · rw [if_pos hp]
      show (if a = b then _ else _) = _
      rw [if_neg h, if_neg (hp ▸ h : ¬ p.1 = b)]
      exact ih
    · rw [if_neg hp]
      by_cases hb : p.1 = b
      · rw [if_pos hb, if_pos hb]
      · rw [if_neg hb, if_neg hb]
        exact ih

theorem setCol_getCol_present {df : DataFrame} {a : String} {s0 s : Series}
    (h : getCol df a = some s0) : getCol (setCol df a s) a = some s := by
  rcases df with ⟨l⟩
  induction l with
  | nil => cases h
  | cons p l ih =>
    rw [getCol_cons] at h
    show getCol ⟨(if p.1 = a then (a, s) else p) :: _⟩ a = _
    rw [getCol_cons]
    by_cases hp : p.1 = a
    · rw [if_pos hp]
      show (if a = a then some s else _) = _
      rw [if_pos rfl]
    · rw [if_neg hp] at h ⊢
      rw [if_neg hp]
      exact ih h

theorem setCol_names (df : DataFrame) (a : String) (s : Series) :
    colNames (setCol df a s) = colNames df := by
  rcases df with ⟨l⟩
  show List.map _ (List.map _ l) = _
  rw [List.map_map]
  apply List.map_eq_map_iff.mpr
  intro p _
  by_cases hp : p.1 = a <;> simp [hp]

theorem getEntry_map_update_self (l : Report) (c : String) (r : Record)
    (hany : l.any (fun p => p.1 = c) = true) :
    getEntry (l.map (fun p => if p.1 = c then (c, r) else p)) c = some r := by
  induction l with
  | nil => cases hany
  | cons p l ih =>
    rw [List.map_cons, getEntry_cons]
    by_cases hp : p.1 = c
    · rw [if_pos hp]
      show (if c = c then _ else _) = _
      rw [if_pos rfl]
    · rw [if_neg hp]
      show (if p.1 = c then _ else _) = _
      rw [if_neg hp]
      apply ih
      rcases List.any_eq_true.mp hany with ⟨p0, hp0, hc0⟩
      rcases List.mem_cons.mp hp0 with rfl | htail
      · exact absurd (of_decide_eq_true hc0) hp
      · exact List.any_eq_true.mpr ⟨p0, htail, hc0⟩

theorem getEntry_map_update_ne (l : Report) (c b : String) (r : Record)
    (h : b ≠ c) :
    getEntry (l.map (fun p => if p.1 = c then (c, r) else p)) b = getEntry l b := by
  induction l with
  | nil => rfl
  | cons p l ih =>
    rw [List.map_cons, getEntry_cons, getEntry_cons]
    by_cases hp : p.1 = c
    · rw [if_pos hp]
      show (if c = b then _ else _) = _
      rw [if_neg (fun hcb => h hcb.symm), if_neg (fun hpb => h ((hp.symm.trans hpb).symm))]
      exact ih
    · rw [if_neg hp]
      by_cases hpb : p.1 = b
      · rw [if_pos hpb, if_pos hpb]
      · rw [if_neg hpb, if_neg hpb]
        exact ih

theorem getEntry_append_single (l : Report) (c b : String) (r : Record) :
    getEntry (l ++ [(c, r)]) b =
      match getEntry l b with
      | some r0 => some r0
      | none => if c = b then some r else none := by
  induction l with
  | nil =>
    show getEntry [(c, r)] b = _
    rw [getEntry_cons]
    rfl
  | cons p l ih =>
    rw [List.cons_append, getEntry_cons, getEntry_cons]
    by_cases hpb : p.1 = b
    · rw [if_pos hpb, if_pos hpb]
    · rw [if_neg hpb, if_neg hpb]
      exact ih

theorem setEntry_get_self (rep : Report) (c : String) (r : Record) :
    getEntry (setEntry rep c r) c = some r := by
  unfold setEntry
  by_cases hany : rep.any (fun p => p.1 = c)
  · rw [if_pos hany]
    exact getEntry_map_update_self rep c r hany
  · rw [if_neg hany]
    rw [getEntry_append_single]
    have hnone : getEntry rep c = none := by
      rcases hfind : rep.find? (fun p => p.1 = c) with _ | p0
      · simp [getEntry, hfind]
      · exfalso
        apply hany
        have hp0 := List.mem_of_find?_eq_some hfind
        have hc0 := List.find?_some hfind
        exact List.any_eq_true.mpr ⟨p0, hp0, hc0⟩
    rw [hnone, if_pos rfl]

theorem setEntry_get_ne (rep : Report) (c b : String) (r : Record)
    (h : b ≠ c) : getEntry (setEntry rep c r) b = getEntry rep b := by
  unfold setEntry
  by_cases hany : rep.any (fun p => p.1 = c)
  · rw [if_pos hany]
    exact getEntry_map_update_ne rep c b r h
  · rw [if_neg hany]
    rw [getEntry_append_single]
    rcases hg : getEntry rep b with _ | r0
    · rw [if_neg (fun hcb => h hcb.symm)]
    · rfl

/-! ### Behaviour of the imputation loop -/

theorem processCol_preserve {t : ℚ} {ns cs : String}
    {acc acc2 : DataFrame × Report} {col : String} {rate : Option ℚ} {c : String}
    (hne : col ≠ c)
    (h : processCol t ns cs acc col rate = .ok acc2) :
    getCol acc2.1 c = getCol acc.1 c ∧ getEntry acc2.2 c = getEntry acc.2 c := by
  have hne2 : c ≠ col := fun hh => hne hh.symm
  simp only [processCol] at h
  by_cases h0 : optRateEqZero rate = true
  · rw [if_pos h0] at h
    obtain rfl := (Except.ok.inj h)
    exact ⟨rfl, setEntry_get_ne _ _ _ _ hne2⟩
  · rw [if_neg h0] at h
    by_cases h1 : optRateLE rate t = true
    · rw [if_pos h1] at h
      rcases hg : getCol acc.1 col with _ | series
      · rw [hg] at h
        cases h
      · simp only [hg] at h
        rcases him : impute_column series (if series.dtype = Dtype.numeric then ns else cs)
          with e | pr
        · simp only [him] at h
          cases h
        · obtain ⟨s2, info⟩ := pr
          simp only [him] at h
          obtain rfl := (Except.ok.inj h)
          exact ⟨setCol_getCol_ne hne2.symm, setEntry_get_ne _ _ _ _ hne2⟩
    · rw [if_neg h1] at h
      rcases hg : getCol acc.1 col with _ | series
      · rw [hg] at h
        cases h
      · simp only [hg] at h
        obtain rfl := (Except.ok.inj h)
        exact ⟨rfl, setEntry_get_ne _ _ _ _ hne2⟩

theorem processCol_names {t : ℚ} {ns cs : String}
    {acc acc2 : DataFrame × Report} {col : String} {rate : Option ℚ}
    (h : processCol t ns cs acc col rate = .ok acc2) :
    colNames acc2.1 = colNames acc.1 := by
  simp only [processCol] at h
  by_cases h0 : optRateEqZero rate = true
  · rw [if_pos h0] at h
    obtain rfl := (Except.ok.inj h)
    rfl
  · rw [if_neg h0] at h
    by_cases h1 : optRateLE rate t = true
    · rw [if_pos h1] at h
      rcases hg : getCol acc.1 col with _ | series
      · rw [hg] at h
        cases h
      · simp only [hg] at h
        rcases him : impute_column series (if series.dtype = Dtype.numeric then ns else cs)
          with e | pr
        · simp only [him] at h
          cases h
        · obtain ⟨s2, info⟩ := pr
          simp only [him] at h
          obtain rfl := (Except.ok.inj h)
          exact setCol_names _ _ _
    · rw [if_neg h1] at h
      rcases hg : getCol acc.1 col with _ | series
      · rw [hg] at h
        cases h
      · simp only [hg] at h
        obtain rfl := (Except.ok.inj h)
        rfl

theorem imputeAll_preserve {t : ℚ} {ns cs : String}
    {R : List (String × Option ℚ)} {acc out : DataFrame × Report} {c : String}
    (hc : c ∉ R.map Prod.fst)
    (h : imputeAll t ns cs acc R = .ok out) :
    getCol out.1 c = getCol acc.1 c ∧ getEntry out.2 c = getEntry acc.2 c := by
  induction R generalizing acc with
  | nil =>
    obtain rfl := (Except.ok.inj h)
    exact ⟨rfl, rfl⟩
  | cons e R ih =>
    rw [List.map_cons, List.mem_cons] at hc
    push_neg at hc
    unfold imputeAll at h
    rcases hpc : processCol t ns cs acc e.1 e.2 with err | acc2
    · rw [hpc] at h
      cases h
    · rw [hpc] at h
      have pres := processCol_preserve (fun hh => hc.1 hh.symm) hpc
      have tail := ih hc.2 h
      exact ⟨tail.1.trans pres.1, tail.2.trans pres.2⟩

theorem imputeAll_names {t : ℚ} {ns cs : String}
    {R : List (String × Option ℚ)} {acc out : DataFrame × Report}
    (h : imputeAll t ns cs acc R = .ok out) :
    colNames out.1 = colNames acc.1 := by
  induction R generalizing acc with
  | nil =>
    obtain rfl := (Except.ok.inj h)
    rfl
  | cons e R ih =>
    unfold imputeAll at h
    rcases hpc : processCol t ns cs acc e.1 e.2 with err | acc2
    · rw [hpc] at h
      cases h
    · rw [hpc] at h
      exact (ih h).trans (processCol_names hpc)

/-- Characterization of one column's fate through the imputation loop:
with no duplicate keys, the column with rate r is left untouched with a
no-op entry when r == 0, replaced by a successful impute_column result
with its info entry when 0 < r ≤ threshold, and left untouched with an
exceeds_threshold note otherwise (reachable only for NaN rates, since
larger real rates raise beforehand). -/
theorem imputeAll_spec {t : ℚ} {ns cs : String}
    {R : List (String × Option ℚ)} {acc out : DataFrame × Report}
    {c : String} {s : Series} {r : Option ℚ}
    (hnd : (R.map Prod.fst).Nodup)
    (hmemR : (c, r) ∈ R)
    (hcol : getCol acc.1 c = some s)
    (h : imputeAll t ns cs acc R = .ok out) :
    (optRateEqZero r = true →
      getCol out.1 c = some s ∧ getEntry out.2 c = some noopRecord) ∧
    (optRateEqZero r = false → optRateLE r t = true →
      ∃ s2 info, impute_column s (if s.dtype = Dtype.numeric then ns else cs) = .ok (s2, info) ∧
        getCol out.1 c = some s2 ∧ getEntry out.2 c = some (infoToRecord info)) ∧
    (optRateEqZero r = false → optRateLE r t = false →
      getCol out.1 c = some s ∧ getEntry out.2 c = some (exceedRecord s)) := by
  induction R generalizing acc with
  | nil => cases hmemR
  | cons e R ih =>
    rw [List.map_cons] at hnd
    have hnd2 := List.nodup_cons.mp hnd
    rcases List.mem_cons.mp hmemR with heq | htail
    · obtain rfl : e = (c, r) := heq.symm ▸ rfl
      unfold imputeAll at h
      rcases hpc : processCol t ns cs acc c r with err | acc2
      · rw [hpc] at h
        cases h
      · rw [hpc] at h
        have pres := imputeAll_preserve hnd2.1 h
        simp only [processCol] at hpc
        by_cases h0 : optRateEqZero r = true
        · rw [if_pos h0] at hpc
          obtain rfl := (Except.ok.inj hpc)
          refine ⟨fun _ => ⟨?_, ?_⟩, fun h0f _ => ?_, fun h0f _ => ?_⟩
          · exact pres.1.trans hcol
          · exact pres.2.trans (setEntry_get_self _ _ _)
          · rw [h0] at h0f
            cases h0f
          · rw [h0] at h0f
            cases h0f
        · rw [if_neg h0] at hpc
          have h0f : optRateEqZero r = false := Bool.eq_false_iff.mpr h0
          by_cases h1 : optRateLE r t = true
          · rw [if_pos h1] at hpc
            simp only [hcol] at hpc
            rcases him : impute_column s (if s.dtype = Dtype.numeric then ns else cs)
              with err2 | pr
            · simp only [him] at hpc
              cases hpc
            · obtain ⟨s2, info⟩ := pr
              simp only [him] at hpc
              obtain rfl := (Except.ok.inj hpc)
              refine ⟨fun h0t => ?_, fun _ _ => ⟨s2, info, rfl, ?_, ?_⟩, fun _ h1f => ?_⟩
              · rw [h0t] at h0f
                cases h0f
              · exact pres.1.trans (setCol_getCol_present hcol)
              · exact pres.2.trans (setEntry_get_self _ _ _)
              · rw [h1] at h1f
                cases h1f
          · have h1f : optRateLE r t = false := Bool.eq_false_iff.mpr h1
            rw [if_neg h1] at hpc
            simp only [hcol] at hpc
            obtain rfl := (Except.ok.inj hpc)
            refine ⟨fun h0t => ?_, fun _ h1t => ?_, fun _ _ => ⟨?_, ?_⟩⟩
            · rw [h0t] at h0f
              cases h0f
            · rw [h1t] at h1f
              cases h1f
            · exact pres.1.trans hcol
            · exact pres.2.trans (setEntry_get_self _ _ _)
    · unfold imputeAll at h
      rcases hpc : processCol t ns cs acc e.1 e.2 with err | acc2
      · rw [hpc] at h
        cases h
      · rw [hpc] at h
        have hne : e.1 ≠ c := by
          intro hh
          exact hnd2.1 (hh ▸ List.mem_map.mpr ⟨(c, r), htail, rfl⟩)
        have pres := processCol_preserve hne hpc
        exact ih hnd2.2 htail (pres.1.trans hcol) h

/-! ### Inversion lemmas for handle_missing_values -/

theorem handle_tooMany_of_ne {df : DataFrame} {t : ℚ} {ns cs : String} {dc : Bool}
    (hne : colsExceed df t ≠ []) :
    handle_missing_values df t ns cs dc = .error (.tooManyMissing (colsExceed df t)) := by
  unfold handle_missing_values
  rw [if_pos hne]

theorem handle_ok_inv {df : DataFrame} {t : ℚ} {ns cs : String} {dc : Bool}
    {df2 : DataFrame} {rep : Report}
    (h : handle_missing_values df t ns cs dc = .ok (df2, rep)) :
    colsExceed df t = [] ∧
    ∃ mid rep0, imputeAll t ns cs (df, ([] : Report)) (compute_missing_rates df) =
        .ok (mid, rep0) ∧
      ((dc = true ∧ (df2, rep) = dropConstantStep mid rep0) ∨
        (dc = false ∧ df2 = mid ∧ rep = rep0)) := by
  unfold handle_missing_values at h
  by_cases hne : colsExceed df t ≠ []
  · rw [if_pos hne] at h
    cases h
  · push_neg at hne
    rw [if_neg (fun hc => hc hne)] at h
    refine ⟨hne, ?_⟩
    rcases him : imputeAll t ns cs (df, ([] : Report)) (compute_missing_rates df)
      with err | pr
    · rw [him] at h
      cases h
    · obtain ⟨mid, rep0⟩ := pr
      rw [him] at h
      cases dc
      · simp only [Bool.false_eq_true, if_false] at h
        obtain ⟨rfl, rfl⟩ := Prod.mk.inj (Except.ok.inj h)
        exact ⟨mid, rep0, rfl, Or.inr ⟨rfl, rfl, rfl⟩⟩
      · simp only [if_true] at h
        exact ⟨mid, rep0, rfl, Or.inl ⟨rfl, (Except.ok.inj h).symm⟩⟩

theorem handle_tooMany_inv {df : DataFrame} {t : ℚ} {ns cs : String} {dc : Bool}
    {L : List (String × ℚ)}
    (h : handle_missing_values df t ns cs dc = .error (.tooManyMissing L)) :
    L = colsExceed df t := by
  by_cases hne : colsExceed df t ≠ []
  · rw [handle_tooMany_of_ne hne] at h
    exact (CleanError.tooManyMissing.inj (Except.error.inj h)).symm
  · push_neg at hne
    unfold handle_missing_values at h
    rw [if_neg (fun hc => hc hne)] at h
    rcases him : imputeAll t ns cs (df, ([] : Report)) (compute_missing_rates df)
      with err | pr
    · rw [him] at h
      cases Except.error.inj h
    · obtain ⟨mid, rep0⟩ := pr
      rw [him] at h
      cases dc
      · simp only [Bool.false_eq_true, if_false] at h
        cases h
      · simp only [if_true] at h
        cases h

theorem colsExceed_mem_iff (df : DataFrame) (t : ℚ) (c : String) (q : ℚ) :
    (c, q) ∈ colsExceed df t ↔
      ∃ s, (c, s) ∈ df.cols ∧ missingRate s = some q ∧ t < q := by
  constructor
  · intro hm
    rcases List.mem_filterMap.mp hm with ⟨e, he, hfe⟩
    rcases List.mem_map.mp he with ⟨p, hp, rfl⟩
    rcases hrate : missingRate p.2 with _ | rr
    · rw [hrate] at hfe
      cases hfe
    · simp only [hrate] at hfe
      by_cases hlt : t < rr
      · rw [if_pos hlt] at hfe
        obtain ⟨h1, h2⟩ := Prod.mk.inj (Option.some.inj hfe)
        refine ⟨p.2, ?_, ?_, ?_⟩
        · rw [← h1]
          simpa using hp
        · rw [hrate, h2]
        · rw [← h2]
          exact hlt
      · rw [if_neg hlt] at hfe
        cases hfe
  · rintro ⟨s, hmem, hrate, hlt⟩
    apply List.mem_filterMap.mpr
    refine ⟨(c, some q), List.mem_map.mpr ⟨(c, s), hmem, by simp [hrate]⟩, ?_⟩
    simp [hlt]

/-! ### Behaviour of the constant-column pruning loop -/

theorem getCol_isSome_of_mem {l : List (String × Series)} {c : String}
    (hc : c ∈ colNames ⟨l⟩) : ∃ x, getCol ⟨l⟩ c = some x := by
  induction l with
  | nil => cases hc
  | cons p0 l ih =>
    rw [getCol_cons]
    by_cases h0 : p0.1 = c
    · exact ⟨p0.2, by rw [if_pos h0]⟩
    · have hc2 : c ∈ colNames ⟨l⟩ := by
        rcases List.mem_map.mp hc with ⟨p, hp, hp1⟩
        rcases List.mem_cons.mp hp with rfl | htail
        · exact absurd hp1 h0
        · exact List.mem_map.mpr ⟨p, htail, hp1⟩
      rcases ih hc2 with ⟨x, hx⟩
      exact ⟨x, by rw [if_neg h0]; exact hx⟩

theorem getCol_eq_none_iff (df : DataFrame) (c : String) :
    getCol df c = none ↔ c ∉ colNames df := by
  rcases df with ⟨l⟩
  constructor
  · intro h hc
    rcases getCol_isSome_of_mem hc with ⟨x, hx⟩
    rw [h] at hx
    cases hx
  · intro hc
    induction l with
    | nil => rfl
    | cons p0 l ih =>
      rw [getCol_cons]
      have h0 : ¬ p0.1 = c := by
        intro h0
        exact hc (List.mem_map.mpr ⟨p0, List.mem_cons_self _ _, h0⟩)
      rw [if_neg h0]
      exact ih (fun hm => by
        rcases List.mem_map.mp hm with ⟨p1, hp1, he1⟩
        exact hc (List.mem_map.mpr ⟨p1, List.mem_cons_of_mem _ hp1, he1⟩))

theorem getCol_filter_ne_none (l : List (String × Series)) (d : String) :
    getCol ⟨l.filter (fun p => ¬ p.1 = d)⟩ d = none := by
  rw [getCol_eq_none_iff]
  intro hm
  rcases List.mem_map.mp hm with ⟨p, hp, hp1⟩
  have := (List.mem_filter.mp hp).2
  rw [hp1] at this
  simp at this

theorem getCol_filter_some {l : List (String × Series)} {d c : String} {x : Series}
    (h : getCol ⟨l.filter (fun p => ¬ p.1 = d)⟩ c = some x) :
    getCol ⟨l⟩ c = some x := by
  have hcd : ¬ c = d := by
    intro rfl_h
    rw [rfl_h, getCol_filter_ne_none] at h
    cases h
  induction l with
  | nil => exact h
  | cons p l ih =>
    rw [List.filter_cons] at h
    rw [getCol_cons]
    by_cases hpd : p.1 = d
    · have : (decide ¬ p.1 = d) = false := by simp [hpd]
      rw [this] at h
      simp only [Bool.false_eq_true, if_false] at h
      have hpc : ¬ p.1 = c := by
        intro hpc
        exact hcd (hpc.symm.trans hpd)
      rw [if_neg hpc]
      exact ih h
    · have : (decide ¬ p.1 = d) = true := by simp [hpd]
      rw [this] at h
      simp only [if_true] at h
      rw [getCol_cons] at h
      by_cases hpc : p.1 = c
      · rw [if_pos hpc] at h ⊢
        exact h
      · rw [if_neg hpc] at h ⊢
        exact ih h

theorem getCol_filter_none {l : List (String × Series)} {d c : String}
    (h : getCol ⟨l⟩ c = none) :
    getCol ⟨l.filter (fun p => ¬ p.1 = d)⟩ c = none := by
  rw [getCol_eq_none_iff] at h ⊢
  intro hm
  rcases List.mem_map.mp hm with ⟨p, hp, hp1⟩
  exact h (List.mem_map.mpr ⟨p, (List.mem_filter.mp hp).1, hp1⟩)

theorem dropConstLoop_col_some {cl : List String} {acc : DataFrame × Report}
    {c : String} {x : Series}
    (h : getCol (dropConstLoop acc cl).1 c = some x) :
    getCol acc.1 c = some x := by
  induction cl generalizing acc with
  | nil => exact h
  | cons d rest ih =>
    unfold dropConstLoop at h
    exact getCol_filter_some (ih h)

theorem dropConstLoop_col_none {cl : List String} {acc : DataFrame × Report}
    {c : String}
    (h : getCol acc.1 c = none) :
    getCol (dropConstLoop acc cl).1 c = none := by
  induction cl generalizing acc with
  | nil => exact h
  | cons d rest ih =>
    unfold dropConstLoop
    exact ih (getCol_filter_none h)

theorem dropConstLoop_absent {cl : List String} {acc : DataFrame × Report}
    {c : String} (hc : c ∈ cl) :
    getCol (dropConstLoop acc cl).1 c = none := by
  induction cl generalizing acc with
  | nil => cases hc
  | cons d rest ih =>
    unfold dropConstLoop
    rcases List.mem_cons.mp hc with rfl | htail
    · exact dropConstLoop_col_none (getCol_filter_ne_none _ _)
    · exact ih htail

theorem dropConstLoop_entry_ne {cl : List String} {acc : DataFrame × Report}
    {c : String} (hc : c ∉ cl) :
    getEntry (dropConstLoop acc cl).2 c = getEntry acc.2 c := by
  induction cl generalizing acc with
  | nil => rfl
  | cons d rest ih =>
    rw [List.mem_cons] at hc
    push_neg at hc
    unfold dropConstLoop
    exact (ih hc.2).trans (setEntry_get_ne _ _ _ _ hc.1)

theorem dropConstLoop_entry_mem {cl : List String} {acc : DataFrame × Report}
    {c : String} (hnd : cl.Nodup) (hc : c ∈ cl) :
    getEntry (dropConstLoop acc cl).2 c =
      some { (getEntry acc.2 c).getD {} with dropped_constant := true } := by
  induction cl generalizing acc with
  | nil => cases hc
  | cons d rest ih =>
    have hnd2 := List.nodup_cons.mp hnd
    unfold dropConstLoop
    rcases List.mem_cons.mp hc with rfl | htail
    · rw [dropConstLoop_entry_ne hnd2.1]
      exact setEntry_get_self _ _ _
    · have hne : c ≠ d := by
        intro rfl_h
        exact hnd2.1 (rfl_h ▸ htail)
      rw [ih hnd2.2 htail, setEntry_get_ne _ _ _ _ hne]

theorem dropConstLoop_mem_preserved {cl : List String} {acc : DataFrame × Report}
    {c : String} {s : Series} (hc : c ∉ cl) :
    ((c, s) ∈ (dropConstLoop acc cl).1.cols ↔ (c, s) ∈ acc.1.cols) := by
  induction cl generalizing acc with
  | nil => exact Iff.rfl
  | cons d rest ih =>
    rw [List.mem_cons] at hc
    push_neg at hc
    unfold dropConstLoop
    rw [ih hc.2]
    show (c, s) ∈ List.filter _ acc.1.cols ↔ _
    rw [List.mem_filter]
    constructor
    · exact fun h => h.1
    · intro h
      exact ⟨h, by simp [hc.1]⟩

/-! ### Outcomes of successful imputations -/

theorem fillNaNum_some_no_missing (cells : List Cell) (q : ℚ) :
    (fillNaNum cells (some q)).countP (fun c => c.isna) = 0 := by
  rw [fillNaNum, List.countP_eq_zero]
  intro a ha
  rcases List.mem_map.mp ha with ⟨b, hb, rfl⟩
  cases b <;> simp [Cell.isna]

theorem astype_no_missing (l : List Cell) :
    (l.map cellAstype).countP (fun c => c.isna) = 0 := by
  rw [List.countP_eq_zero]
  intro a ha
  rcases List.mem_map.mp ha with ⟨b, hb, rfl⟩
  simp [cellAstype, Cell.isna]

theorem astype_comp_no_missing (l : List Cell) (g : Cell → Cell) :
    (l.map (cellAstype ∘ g)).countP (fun c => c.isna) = 0 := by
  rw [List.countP_eq_zero]
  intro a ha
  rcases List.mem_map.mp ha with ⟨b, hb, rfl⟩
  simp [cellAstype, Cell.isna]

theorem medianQ_of_ne_nil {xs : List ℚ} (h : xs ≠ []) :
    ∃ m, medianQ xs = some m := by
  have hlen : (List.insertionSort (fun a b : ℚ => a ≤ b) xs).length = xs.length :=
    (List.perm_insertionSort _ xs).length_eq
  have hne : ¬ (List.insertionSort (fun a b : ℚ => a ≤ b) xs).length = 0 := by
    rw [hlen]
    exact length_ne_zero_of_ne_nil h
  by_cases hodd : (List.insertionSort (fun a b : ℚ => a ≤ b) xs).length % 2 = 1
  · refine ⟨(List.insertionSort (fun a b : ℚ => a ≤ b) xs).getD
      ((List.insertionSort (fun a b : ℚ => a ≤ b) xs).length / 2) 0, ?_⟩
    simp only [medianQ]
    rw [if_neg hne, if_pos hodd]
  · refine ⟨((List.insertionSort (fun a b : ℚ => a ≤ b) xs).getD
        ((List.insertionSort (fun a b : ℚ => a ≤ b) xs).length / 2 - 1) 0 +
      (List.insertionSort (fun a b : ℚ => a ≤ b) xs).getD
        ((List.insertionSort (fun a b : ℚ => a ≤ b) xs).length / 2) 0) / 2, ?_⟩
    simp only [medianQ]
    rw [if_neg hne, if_neg hodd]

theorem meanQ_of_ne_nil {xs : List ℚ} (h : xs ≠ []) :
    ∃ m, meanQ xs = some m := by
  refine ⟨xs.sum / (xs.length : ℚ), ?_⟩
  simp only [meanQ]
  rw [if_neg (length_ne_zero_of_ne_nil h)]

theorem impute_median_eq (s : Series) (hdt : s.dtype = Dtype.numeric) :
    impute_column s "median" =
      .ok (⟨Dtype.numeric, fillNaNum s.cells (medianQ (numVals s.cells))⟩,
        ⟨"float64", "median", s.cells.countP (fun c => c.isna),
          .fnum (medianQ (numVals s.cells)),
          (fillNaNum s.cells (medianQ (numVals s.cells))).countP (fun c => c.isna)⟩) := by
  simp [impute_column, hdt, dtypeStr]

theorem impute_mean_eq (s : Series) (hdt : s.dtype = Dtype.numeric) :
    impute_column s "mean" =
      .ok (⟨Dtype.numeric, fillNaNum s.cells (meanQ (numVals s.cells))⟩,
        ⟨"float64", "mean", s.cells.countP (fun c => c.isna),
          .fnum (meanQ (numVals s.cells)),
          (fillNaNum s.cells (meanQ (numVals s.cells))).countP (fun c => c.isna)⟩) := by
  simp [impute_column, hdt, dtypeStr]

theorem impute_constant_num_eq (s : Series) (hdt : s.dtype = Dtype.numeric) :
    impute_column s "constant" =
      .ok (⟨Dtype.numeric, fillNaNum s.cells (some 0)⟩,
        ⟨"float64", "constant", s.cells.countP (fun c => c.isna),
          .fnum (some 0),
          (fillNaNum s.cells (some 0)).countP (fun c => c.isna)⟩) := by
  simp [impute_column, hdt, dtypeStr]

theorem impute_ok_numeric_no_missing {s : Series} {st : String}
    {s2 : Series} {info : ImputeInfo}
    (hdt : s.dtype = Dtype.numeric)
    (him : impute_column s st = .ok (s2, info))
    (hfill : st = "constant" ∨ numVals s.cells ≠ []) :
    nMissing s2 = 0 := by
  by_cases hst : st = "median" ∨ st = "mean" ∨ st = "constant"
  · rcases hst with rfl | rfl | rfl
    · rcases hfill with hcl | hnv
      · exact absurd hcl (by decide)
      · rcases medianQ_of_ne_nil hnv with ⟨m, hm⟩
        rw [impute_median_eq s hdt] at him
        obtain ⟨hs2, _⟩ := Prod.mk.inj (Except.ok.inj him)
        rw [← hs2, nMissing]
        show (fillNaNum s.cells (medianQ (numVals s.cells))).countP (fun c => c.isna) = 0
        rw [hm]
        exact fillNaNum_some_no_missing _ _
    · rcases hfill with hcl | hnv
      · exact absurd hcl (by decide)
      · rcases meanQ_of_ne_nil hnv with ⟨m, hm⟩
        rw [impute_mean_eq s hdt] at him
        obtain ⟨hs2, _⟩ := Prod.mk.inj (Except.ok.inj him)
        rw [← hs2, nMissing]
        show (fillNaNum s.cells (meanQ (numVals s.cells))).countP (fun c => c.isna) = 0
        rw [hm]
        exact fillNaNum_some_no_missing _ _
    · rw [impute_constant_num_eq s hdt] at him
      obtain ⟨hs2, _⟩ := Prod.mk.inj (Except.ok.inj him)
      rw [← hs2, nMissing]
      exact fillNaNum_some_no_missing _ _
  · have herr : impute_column s st = .error ("Unknown numeric strategy: " ++ st) := by
      simp [impute_column, hdt, hst]
    rw [herr] at him
    cases him

theorem impute_ok_obj_no_missing {s : Series} {st : String}
    {s2 : Series} {info : ImputeInfo}
    (hdt : s.dtype = Dtype.obj)
    (him : impute_column s st = .ok (s2, info)) :
    nMissing s2 = 0 := by
  by_cases hst : st = "mode" ∨ st = "constant"
  · have hcells : ∃ fill, s2 =
        ⟨Dtype.obj, s.cells.map (cellAstype ∘ fun c => if c.isna then fill else c)⟩ := by
      rcases hst with rfl | rfl
      · refine ⟨if dropNa s.cells = [] then Cell.str "missing"
          else match modeCell s.cells with
            | some m => m
            | none => Cell.str "missing", ?_⟩
        have hich : impute_column s "mode" = .ok (s2, info) := him
        simp [impute_column, hdt] at hich
        exact hich.1.symm
      · refine ⟨Cell.str "missing", ?_⟩
        have hich : impute_column s "constant" = .ok (s2, info) := him
        simp [impute_column, hdt] at hich
        exact hich.1.symm
    rcases hcells with ⟨fill, rfl⟩
    exact astype_comp_no_missing _ _
  · have herr : impute_column s st = .error ("Unknown categorical strategy: " ++ st) := by
      simp [impute_column, hdt, hst]
    rw [herr] at him
    cases him

/-! ### Claim C1: all-or-nothing rejection -/

/-- Claim C1: whenever some column's (non-NaN) missing rate strictly
exceeds the threshold, handle_missing_values returns the structured
TooManyMissingError whose payload is exactly the set of columns whose
rate exceeds the threshold, mapped to their exact rates; the error is
produced by the gate before the imputation loop runs, and in this
functional embedding no table is produced at all (the caller's table is
untouched, matching the all-or-nothing contract). -/
theorem rejection_is_all_or_nothing (df : DataFrame) (t : ℚ) (ns cs : String)
    (dc : Bool)
    (h : ∃ p ∈ df.cols, optRateGT (missingRate p.2) t = true) :
    handle_missing_values df t ns cs dc =
      .error (.tooManyMissing (colsExceed df t)) ∧
    ∀ (c : String) (q : ℚ), ((c, q) ∈ colsExceed df t ↔
      ∃ s, (c, s) ∈ df.cols ∧ missingRate s = some q ∧ t < q) := by
  have hne : colsExceed df t ≠ [] := by
    rcases h with ⟨p, hp, hgt⟩
    rcases hrate : missingRate p.2 with _ | q
    · rw [hrate] at hgt
      simp [optRateGT] at hgt
    · rw [hrate] at hgt
      have hlt : t < q := by simpa [optRateGT] using hgt
      intro hnil
      have hm : (p.1, q) ∈ colsExceed df t :=
        (colsExceed_mem_iff df t p.1 q).mpr ⟨p.2, by simpa using hp, hrate, hlt⟩
      rw [hnil] at hm
      cases hm
  exact ⟨handle_tooMany_of_ne hne, colsExceed_mem_iff df t⟩

/-- Witness for claim C1 at the spec's rejection example: one column
with missing rate 0.2 against threshold 0.07 produces the
TooManyMissingError listing exactly that column at exactly 1/5. -/
theorem rejection_is_all_or_nothing_witness :
    handle_missing_values
        ⟨[("col", ⟨Dtype.numeric,
          [Cell.num 1, Cell.num 2, Cell.num 3, Cell.num 4, Cell.na]⟩)]⟩
        (7/100) "median" "mode" true =
      .error (.tooManyMissing (colsExceed
        ⟨[("col", ⟨Dtype.numeric,
          [Cell.num 1, Cell.num 2, Cell.num 3, Cell.num 4, Cell.na]⟩)]⟩ (7/100))) ∧
    colsExceed
      ⟨[("col", ⟨Dtype.numeric,
        [Cell.num 1, Cell.num 2, Cell.num 3, Cell.num 4, Cell.na]⟩)]⟩ (7/100) =
      [("col", 1/5)] := by
  have hr5 : missingRate ⟨Dtype.numeric,
      [Cell.num 1, Cell.num 2, Cell.num 3, Cell.num 4, Cell.na]⟩ = some (1/5) := by
    rw [missingRate]
    norm_num [List.countP_cons, List.countP_nil, Cell.isna]
  have h := rejection_is_all_or_nothing
    ⟨[("col", ⟨Dtype.numeric,
      [Cell.num 1, Cell.num 2, Cell.num 3, Cell.num 4, Cell.na]⟩)]⟩
    (7/100) "median" "mode" true
    ⟨("col", ⟨Dtype.numeric,
      [Cell.num 1, Cell.num 2, Cell.num 3, Cell.num 4, Cell.na]⟩), by decide, by
        rw [hr5]
        simp only [optRateGT, decide_eq_true_eq]
        norm_num⟩
  refine ⟨h.1, ?_⟩
  simp only [colsExceed, compute_missing_rates, List.map_cons, List.map_nil,
    List.filterMap_cons, List.filterMap_nil, hr5]
  norm_num

/-! ### Claim C2: strict rejection, non-strict eligibility -/

/-- Claim C2: the threshold test is strict for rejection and non-strict
for eligibility.  A column whose missing rate equals the threshold
exactly never appears in a TooManyMissingError payload (first conjunct);
a column whose rate is any amount above the threshold forces the error,
with that column listed (second conjunct); and, when the call succeeds,
a column exactly at a non-zero threshold was actually imputed: its
report entry is the impute_column record, possibly carrying the
dropped_constant mark (third conjunct). -/
theorem threshold_boundary_strictness (df : DataFrame) (t : ℚ) (ns cs : String)
    (dc : Bool) (c : String) (s : Series)
    (hmem : (c, s) ∈ df.cols) :
    (missingRate s = some t →
      ∀ L, handle_missing_values df t ns cs dc = .error (.tooManyMissing L) →
        (c, t) ∉ L) ∧
    (∀ q, missingRate s = some q → t < q →
      ∃ L, handle_missing_values df t ns cs dc = .error (.tooManyMissing L) ∧
        (c, q) ∈ L) ∧
    (missingRate s = some t → t ≠ 0 → (colNames df).Nodup →
      ∀ df2 rep, handle_missing_values df t ns cs dc = .ok (df2, rep) →
        ∃ s2 info,
          impute_column s (if s.dtype = Dtype.numeric then ns else cs) = .ok (s2, info) ∧
          (getEntry rep c = some (infoToRecord info) ∨
            getEntry rep c = some { infoToRecord info with dropped_constant := true })) := by
  refine ⟨?_, ?_, ?_⟩
  · intro hrt L hL hmemL
    rw [handle_tooMany_inv hL] at hmemL
    rcases (colsExceed_mem_iff df t c t).mp hmemL with ⟨s', _, _, hlt⟩
    exact absurd hlt (lt_irrefl t)
  · intro q hq hlt
    have hm : (c, q) ∈ colsExceed df t :=
      (colsExceed_mem_iff df t c q).mpr ⟨s, hmem, hq, hlt⟩
    exact ⟨colsExceed df t, handle_tooMany_of_ne (List.ne_nil_of_mem hm), hm⟩
  · intro hrt ht0 hnd df2 rep hok
    obtain ⟨hgate, mid, rep0, hmid, hdc⟩ := handle_ok_inv hok
    have hkeys : (compute_missing_rates df).map Prod.fst = colNames df := by
      simp [compute_missing_rates, colNames, List.map_map]
    have hndR : ((compute_missing_rates df).map Prod.fst).Nodup := by
      rw [hkeys]
      exact hnd
    have hmemR : (c, some t) ∈ compute_missing_rates df := by
      rw [← hrt]
      exact List.mem_map.mpr ⟨(c, s), hmem, rfl⟩
    have hcol0 : getCol df c = some s := getCol_of_mem_nodup hnd hmem
    have spec := imputeAll_spec hndR hmemR hcol0 hmid
    have h0f : optRateEqZero (some t) = false := by
      simp [optRateEqZero, ht0]
    have h1t : optRateLE (some t) t = true := by
      simp [optRateLE]
    obtain ⟨s2, info, him, _, hent⟩ := spec.2.1 h0f h1t
    refine ⟨s2, info, him, ?_⟩
    rcases hdc with ⟨_, hpair⟩ | ⟨_, _, hrep⟩
    · have hrep : rep = (dropConstantStep mid rep0).2 := congrArg Prod.snd hpair
      by_cases hc : c ∈ (mid.cols.filter
          (fun p => nuniqueDropna p.2 ≤ 1)).map (fun p => p.1)
      · right
        have hcl_nodup : ((mid.cols.filter
            (fun p => nuniqueDropna p.2 ≤ 1)).map (fun p => p.1)).Nodup := by
          have hsub : List.Sublist
              ((mid.cols.filter (fun p => nuniqueDropna p.2 ≤ 1)).map (fun p => p.1))
              (mid.cols.map (fun p => p.1)) :=
            (List.filter_sublist _).map _
          have hndmid : (colNames mid).Nodup := by
            rw [imputeAll_names hmid]
            exact hnd
          exact hndmid.sublist hsub
        rw [hrep, dropConstantStep, dropConstLoop_entry_mem hcl_nodup hc, hent]
        rfl
      · left
        rw [hrep, dropConstantStep, dropConstLoop_entry_ne hc]
        exact hent
    · left
      rw [hrep]
      exact hent

/-- Witness for claim C2 at a column [1, NaN] with threshold exactly
1/2 = missing rate: the call succeeds, the column is imputed with the
median 1, and its report entry is the impute record. -/
theorem threshold_boundary_strictness_witness :
    ∃ s2 info,
      impute_column ⟨Dtype.numeric, [Cell.num 1, Cell.na]⟩
          "median" = .ok (s2, info) ∧
      (getEntry [("a", infoToRecord ⟨"float64", "median", 1, .fnum (some 1), 0⟩)]
          "a" = some (infoToRecord info) ∨
        getEntry [("a", infoToRecord ⟨"float64", "median", 1, .fnum (some 1), 0⟩)]
          "a" = some { infoToRecord info with dropped_constant := true }) := by
  have hr : missingRate ⟨Dtype.numeric, [Cell.num 1, Cell.na]⟩ = some (1/2) := by
    rw [missingRate]
    norm_num [List.countP_cons, List.countP_nil, Cell.isna]
  have hb0 : optRateEqZero (some ((1 : ℚ)/2)) = false := by
    simp only [optRateEqZero, decide_eq_false_iff_not]
    norm_num
  have hb1 : optRateLE (some ((1 : ℚ)/2)) (1/2) = true := by
    simp [optRateLE]
  have hok : handle_missing_values
      ⟨[("a", ⟨Dtype.numeric, [Cell.num 1, Cell.na]⟩)]⟩ (1/2) "median" "mode" false =
      .ok (⟨[("a", ⟨Dtype.numeric, [Cell.num 1, Cell.num 1]⟩)]⟩,
        [("a", infoToRecord ⟨"float64", "median", 1, .fnum (some 1), 0⟩)]) := by
    have hgt : ((1 : ℚ)/2 < 1/2) = False := by
      simp
    simp [handle_missing_values, compute_missing_rates, colsExceed, hr, hgt,
      imputeAll, processCol, hb0, hb1, getCol, setCol, setEntry, List.find?,
      impute_column, medianQ, numVals, fillNaNum, dtypeStr, infoToRecord,
      List.insertionSort, List.orderedInsert, Cell.isna,
      List.countP_cons, List.countP_nil]
    norm_num [optRateEqZero, optRateLE]
  have h := (threshold_boundary_strictness
    ⟨[("a", ⟨Dtype.numeric, [Cell.num 1, Cell.na]⟩)]⟩
    (1/2) "median" "mode" false "a"
    ⟨Dtype.numeric, [Cell.num 1, Cell.na]⟩
    (by decide)).2.2 hr (by norm_num) (by decide)
    ⟨[("a", ⟨Dtype.numeric, [Cell.num 1, Cell.num 1]⟩)]⟩
    [("a", infoToRecord ⟨"float64", "median", 1, .fnum (some 1), 0⟩)]
    hok
  exact h

/-! ### Claim C3: imputed columns end with no missing values -/

/-- Claim C3, counterexample: the claim says every column whose missing
rate was at most the threshold has zero missing values in the returned
table unless dropped by constant-column pruning.  For the single
all-missing numeric column [NaN] with threshold 1 and pruning off, the
rate 1 is at most the threshold, the call succeeds, the column is not
dropped, and it is returned with its one cell still missing (median of
an empty value set is NaN and fillna(NaN) fills nothing). -/
theorem imputed_columns_counterexample :
    handle_missing_values ⟨[("a", ⟨Dtype.numeric, [Cell.na]⟩)]⟩ 1
        "median" "mode" false =
      .ok (⟨[("a", ⟨Dtype.numeric, [Cell.na]⟩)]⟩,
        [("a", infoToRecord ⟨"float64", "median", 1, .fnum none, 1⟩)]) ∧
    missingRate ⟨Dtype.numeric, [Cell.na]⟩ = some 1 ∧
    (1 : ℚ) ≤ 1 ∧
    getCol ⟨[("a", ⟨Dtype.numeric, [Cell.na]⟩)]⟩ "a" =
      some ⟨Dtype.numeric, [Cell.na]⟩ ∧
    nMissing ⟨Dtype.numeric, [Cell.na]⟩ = 1 := by
  have hr : missingRate ⟨Dtype.numeric, [Cell.na]⟩ = some 1 := by
    rw [missingRate]
    norm_num [List.countP_cons, List.countP_nil, Cell.isna]
  refine ⟨?_, hr, le_refl 1, rfl, rfl⟩
  have hgt : ((1 : ℚ) < 1) = False := by
    simp
  simp [handle_missing_values, compute_missing_rates, colsExceed, hr, hgt,
    imputeAll, processCol, getCol, setCol, setEntry, List.find?,
    impute_column, medianQ, numVals, fillNaNum, dtypeStr, infoToRecord,
    List.insertionSort, Cell.isna, List.countP_cons, List.countP_nil]
  norm_num [optRateEqZero, optRateLE]

/-- Claim C3 (amended): when handle_missing_values succeeds, every
column whose missing rate was at most the threshold at check time has
zero missing values in the returned table, unless it was dropped by the
constant-column pruning (the conclusion is conditional on the column
being present in the output) — with the exception the counterexample
forces: a numeric column with no non-missing value at all whose strategy
is not "constant" is returned unchanged, still entirely missing.  The
hypothesis hexc excludes exactly that case. -/
theorem imputed_columns_have_no_missing
    (df : DataFrame) (t : ℚ) (ns cs : String) (dc : Bool) (c : String)
    (s s2 : Series) (q : ℚ) (df2 : DataFrame) (rep : Report)
    (hnd : (colNames df).Nodup)
    (hwf : seriesWF s = true)
    (hmem : (c, s) ∈ df.cols)
    (hrate : missingRate s = some q)
    (hle : q ≤ t)
    (hok : handle_missing_values df t ns cs dc = .ok (df2, rep))
    (hout : getCol df2 c = some s2)
    (hexc : (∃ x ∈ s.cells, x.isna = false) ∨ s.dtype = Dtype.obj ∨ ns = "constant") :
    nMissing s2 = 0 := by
  obtain ⟨hgate, mid, rep0, hmid, hdc⟩ := handle_ok_inv hok
  have hkeys : (compute_missing_rates df).map Prod.fst = colNames df := by
    simp [compute_missing_rates, colNames, List.map_map]
  have hndR : ((compute_missing_rates df).map Prod.fst).Nodup := by
    rw [hkeys]
    exact hnd
  have hmemR : (c, some q) ∈ compute_missing_rates df := by
    rw [← hrate]
    exact List.mem_map.mpr ⟨(c, s), hmem, rfl⟩
  have hcol0 : getCol df c = some s := getCol_of_mem_nodup hnd hmem
  have spec := imputeAll_spec hndR hmemR hcol0 hmid
  have hmids2 : getCol mid c = some s2 := by
    rcases hdc with ⟨_, hpair⟩ | ⟨_, hdf2, _⟩
    · have hdf2 : df2 = (dropConstantStep mid rep0).1 := congrArg Prod.fst hpair
      rw [hdf2, dropConstantStep] at hout
      exact dropConstLoop_col_some hout
    · rw [hdf2] at hout
      exact hout
  have hlen : s.cells.length ≠ 0 := by
    intro hl
    rw [missingRate, if_pos hl] at hrate
    cases hrate
  by_cases h0 : optRateEqZero (some q) = true
  · have hq0 : q = 0 := by simpa [optRateEqZero] using h0
    have hbr := spec.1 h0
    have hs : s2 = s := Option.some.inj (hmids2.symm.trans hbr.1)
    rw [hs]
    have hdiv : ((s.cells.countP (fun x => x.isna) : ℚ)) / (s.cells.length : ℚ) = 0 := by
      rw [missingRate, if_neg hlen] at hrate
      rw [Option.some.inj hrate, hq0]
    have hlenq : ((s.cells.length : ℚ)) ≠ 0 := by
      exact_mod_cast hlen
    have hcount : ((s.cells.countP (fun x => x.isna) : ℚ)) = 0 :=
      (div_eq_zero_iff.mp hdiv).resolve_right hlenq
    have hc0 : s.cells.countP (fun x => x.isna) = 0 := by
      exact_mod_cast hcount
    exact hc0
  · have h0f := Bool.eq_false_iff.mpr h0
    have h1t : optRateLE (some q) t = true := by
      simp [optRateLE, hle]
    obtain ⟨s2', info, him, hcolmid, _⟩ := spec.2.1 h0f h1t
    have hs : s2 = s2' := Option.some.inj (hmids2.symm.trans hcolmid)
    rw [hs]
    rcases hdt : s.dtype with _ | _
    · have him2 : impute_column s ns = .ok (s2', info) := by
        rwa [hdt, if_pos rfl] at him
      apply impute_ok_numeric_no_missing hdt him2
      rcases hexc with ⟨x, hx, hxna⟩ | hobj | hcst
      · right
        have hwfall : s.cells.all (fun y => y.isna || y.isNum) = true := by
          rw [seriesWF, hdt] at hwf
          simpa using hwf
        obtain ⟨qx, rfl⟩ : ∃ qx, x = Cell.num qx := by
          have := List.all_eq_true.mp hwfall x hx
          cases x <;> simp_all [Cell.isna, Cell.isNum]
        intro hnil
        have hqx : qx ∈ numVals s.cells :=
          List.mem_filterMap.mpr ⟨Cell.num qx, hx, rfl⟩
        rw [hnil] at hqx
        cases hqx
      · rw [hdt] at hobj
        exact absurd hobj (by decide)
      · left
        exact hcst
    · have him2 : impute_column s cs = .ok (s2', info) := by
        rwa [hdt, if_neg (by decide)] at him
      exact impute_ok_obj_no_missing hdt him2

/-- Witness for the amended claim C3: the column [1, NaN] has rate
1/2 ≤ threshold 1/2, it has a non-missing value, the call succeeds with
the column imputed to [1, 1], and that returned column has no missing
values. -/
theorem imputed_columns_have_no_missing_witness :
    nMissing ⟨Dtype.numeric, [Cell.num 1, Cell.num 1]⟩ = 0 := by
  have hr : missingRate ⟨Dtype.numeric, [Cell.num 1, Cell.na]⟩ = some (1/2) := by
    rw [missingRate]
    norm_num [List.countP_cons, List.countP_nil, Cell.isna]
  have hok : handle_missing_values
      ⟨[("a", ⟨Dtype.numeric, [Cell.num 1, Cell.na]⟩)]⟩ (1/2) "median" "mode" false =
      .ok (⟨[("a", ⟨Dtype.numeric, [Cell.num 1, Cell.num 1]⟩)]⟩,
        [("a", infoToRecord ⟨"float64", "median", 1, .fnum (some 1), 0⟩)]) := by
    have hgt : ((1 : ℚ)/2 < 1/2) = False := by
      simp
    simp [handle_missing_values, compute_missing_rates, colsExceed, hr, hgt,
      imputeAll, processCol, getCol, setCol, setEntry, List.find?,
      impute_column, medianQ, numVals, fillNaNum, dtypeStr, infoToRecord,
      List.insertionSort, List.orderedInsert, Cell.isna,
      List.countP_cons, List.countP_nil]
    norm_num [optRateEqZero, optRateLE]
  exact imputed_columns_have_no_missing
    ⟨[("a", ⟨Dtype.numeric, [Cell.num 1, Cell.na]⟩)]⟩ (1/2) "median" "mode" false
    "a" ⟨Dtype.numeric, [Cell.num 1, Cell.na]⟩
    ⟨Dtype.numeric, [Cell.num 1, Cell.num 1]⟩ (1/2)
    ⟨[("a", ⟨Dtype.numeric, [Cell.num 1, Cell.num 1]⟩)]⟩
    [("a", infoToRecord ⟨"float64", "median", 1, .fnum (some 1), 0⟩)]
    (by decide) (by decide) (by decide) hr (le_refl _) hok rfl
    (Or.inl ⟨Cell.num 1, by decide, by decide⟩)

/-! ### Claim C9: constant-column pruning -/

/-- Claim C9: with allow_drop_constant on, a successful call drops from
the post-imputation table exactly the columns with at most one distinct
non-missing value: such a column is absent from the returned table and
its report entry is its existing entry (an empty one if absent) merged
with dropped_constant = true, while every other column is returned and
its entry is untouched.  The post-imputation table mid and report rep0
are named by the imputeAll hypothesis. -/
theorem drop_constant_prunes_exactly
    (df : DataFrame) (t : ℚ) (ns cs : String)
    (mid df2 : DataFrame) (rep0 rep : Report)
    (hnd : (colNames df).Nodup)
    (hmid : imputeAll t ns cs (df, ([] : Report)) (compute_missing_rates df) =
      .ok (mid, rep0))
    (hok : handle_missing_values df t ns cs true = .ok (df2, rep)) :
    ∀ c s, (c, s) ∈ mid.cols →
      (nuniqueDropna s ≤ 1 →
        c ∉ colNames df2 ∧
        getEntry rep c = some { (getEntry rep0 c).getD {} with dropped_constant := true }) ∧
      (1 < nuniqueDropna s →
        (c, s) ∈ df2.cols ∧ getEntry rep c = getEntry rep0 c) := by
  obtain ⟨hgate, mid', rep0', hmid', hdc⟩ := handle_ok_inv hok
  obtain ⟨hm1, hm2⟩ := Prod.mk.inj (Except.ok.inj (hmid.symm.trans hmid'))
  rw [← hm1, ← hm2] at hdc
  rcases hdc with ⟨_, hpair⟩ | ⟨hfalse, _, _⟩
  swap
  · cases hfalse
  have hdf2 : df2 = (dropConstantStep mid rep0).1 := congrArg Prod.fst hpair
  have hrep : rep = (dropConstantStep mid rep0).2 := congrArg Prod.snd hpair
  have hndmid : (colNames mid).Nodup := by
    rw [imputeAll_names hmid]
    exact hnd
  have hclnd : ((mid.cols.filter
      (fun p => nuniqueDropna p.2 ≤ 1)).map (fun p => p.1)).Nodup :=
    hndmid.sublist ((List.filter_sublist _).map _)
  intro c s hmem
  constructor
  · intro hle1
    have hcin : c ∈ (mid.cols.filter
        (fun p => nuniqueDropna p.2 ≤ 1)).map (fun p => p.1) :=
      List.mem_map.mpr ⟨(c, s), List.mem_filter.mpr ⟨hmem, by simpa using hle1⟩, rfl⟩
    constructor
    · rw [hdf2, dropConstantStep, ← getCol_eq_none_iff]
      exact dropConstLoop_absent hcin
    · rw [hrep, dropConstantStep]
      exact dropConstLoop_entry_mem hclnd hcin
  · intro hgt1
    have hcnin : c ∉ (mid.cols.filter
        (fun p => nuniqueDropna p.2 ≤ 1)).map (fun p => p.1) := by
      intro hcin
      rcases List.mem_map.mp hcin with ⟨p, hpf, hp1⟩
      have hpm := (List.mem_filter.mp hpf).1
      have hple : nuniqueDropna p.2 ≤ 1 := by
        simpa using (List.mem_filter.mp hpf).2
      have hpm2 : (c, p.2) ∈ mid.cols := by
        rw [← hp1]
        simpa using hpm
      have hps : p.2 = s := mem_unique_of_nodup hndmid hpm2 hmem
      rw [hps] at hple
      omega
    constructor
    · rw [hdf2, dropConstantStep]
      exact (dropConstLoop_mem_preserved hcnin).mpr hmem
    · rw [hrep, dropConstantStep]
      exact dropConstLoop_entry_ne hcnin

/-- Witness for claim C9: the table with a column a = [2, 2, 2, NaN]
(imputed to the constant [2, 2, 2, 2]) and a column b = [1, 2, 3, 4];
after pruning, a is absent from the returned table and its report entry
is the impute record merged with dropped_constant = true. -/
theorem drop_constant_prunes_exactly_witness :
    ("a" ∉ colNames ⟨[("b",
      ⟨Dtype.numeric, [Cell.num 1, Cell.num 2, Cell.num 3, Cell.num 4]⟩)]⟩) ∧
    getEntry
        [("a", { infoToRecord ⟨"float64", "median", 1, .fnum (some 2), 0⟩ with
          dropped_constant := true }), ("b", noopRecord)] "a" =
      some { (getEntry
          [("a", infoToRecord ⟨"float64", "median", 1, .fnum (some 2), 0⟩),
            ("b", noopRecord)] "a").getD {} with dropped_constant := true } := by
  have hra : missingRate ⟨Dtype.numeric,
      [Cell.num 2, Cell.num 2, Cell.num 2, Cell.na]⟩ = some (1/4) := by
    rw [missingRate]
    norm_num [List.countP_cons, List.countP_nil, Cell.isna]
  have hrb : missingRate ⟨Dtype.numeric,
      [Cell.num 1, Cell.num 2, Cell.num 3, Cell.num 4]⟩ = some 0 := by
    rw [missingRate]
    norm_num [List.countP_cons, List.countP_nil, Cell.isna]
  have hmid : imputeAll (1/2) "median" "mode"
      (⟨[("a", ⟨Dtype.numeric, [Cell.num 2, Cell.num 2, Cell.num 2, Cell.na]⟩),
        ("b", ⟨Dtype.numeric, [Cell.num 1, Cell.num 2, Cell.num 3, Cell.num 4]⟩)]⟩,
        ([] : Report))
      (compute_missing_rates
        ⟨[("a", ⟨Dtype.numeric, [Cell.num 2, Cell.num 2, Cell.num 2, Cell.na]⟩),
          ("b", ⟨Dtype.numeric, [Cell.num 1, Cell.num 2, Cell.num 3, Cell.num 4]⟩)]⟩) =
      .ok (⟨[("a", ⟨Dtype.numeric, [Cell.num 2, Cell.num 2, Cell.num 2, Cell.num 2]⟩),
        ("b", ⟨Dtype.numeric, [Cell.num 1, Cell.num 2, Cell.num 3, Cell.num 4]⟩)]⟩,
        [("a", infoToRecord ⟨"float64", "median", 1, .fnum (some 2), 0⟩),
          ("b", noopRecord)]) := by
    simp [compute_missing_rates, hra, hrb, imputeAll, processCol, getCol, setCol,
      setEntry, List.find?, impute_column, medianQ, numVals, fillNaNum, dtypeStr,
      infoToRecord, noopRecord, List.insertionSort, List.orderedInsert, Cell.isna,
      List.countP_cons, List.countP_nil]
    norm_num [optRateEqZero, optRateLE]
    all_goals decide
  have hok : handle_missing_values
      ⟨[("a", ⟨Dtype.numeric, [Cell.num 2, Cell.num 2, Cell.num 2, Cell.na]⟩),
        ("b", ⟨Dtype.numeric, [Cell.num 1, Cell.num 2, Cell.num 3, Cell.num 4]⟩)]⟩
      (1/2) "median" "mode" true =
      .ok (⟨[("b", ⟨Dtype.numeric, [Cell.num 1, Cell.num 2, Cell.num 3, Cell.num 4]⟩)]⟩,
        [("a", { infoToRecord ⟨"float64", "median", 1, .fnum (some 2), 0⟩ with
          dropped_constant := true }), ("b", noopRecord)]) := by
    simp [handle_missing_values, compute_missing_rates, colsExceed, hra, hrb,
      imputeAll, processCol, getCol, setCol, setEntry, getEntry, List.find?,
      impute_column, medianQ, numVals, fillNaNum, dtypeStr, infoToRecord,
      noopRecord, dropConstantStep, dropConstLoop, nuniqueDropna, dropNa,
      List.insertionSort, List.orderedInsert, Cell.isna, List.countP_cons,
      List.countP_nil, List.dedup]
    norm_num [optRateEqZero, optRateLE]
    all_goals decide
  have h := drop_constant_prunes_exactly
    ⟨[("a", ⟨Dtype.numeric, [Cell.num 2, Cell.num 2, Cell.num 2, Cell.na]⟩),
      ("b", ⟨Dtype.numeric, [Cell.num 1, Cell.num 2, Cell.num 3, Cell.num 4]⟩)]⟩
    (1/2) "median" "mode"
    ⟨[("a", ⟨Dtype.numeric, [Cell.num 2, Cell.num 2, Cell.num 2, Cell.num 2]⟩),
      ("b", ⟨Dtype.numeric, [Cell.num 1, Cell.num 2, Cell.num 3, Cell.num 4]⟩)]⟩
    ⟨[("b", ⟨Dtype.numeric, [Cell.num 1, Cell.num 2, Cell.num 3, Cell.num 4]⟩)]⟩
    [("a", infoToRecord ⟨"float64", "median", 1, .fnum (some 2), 0⟩),
      ("b", noopRecord)]
    [("a", { infoToRecord ⟨"float64", "median", 1, .fnum (some 2), 0⟩ with
      dropped_constant := true }), ("b", noopRecord)]
    (by decide) hmid hok
    "a" ⟨Dtype.numeric, [Cell.num 2, Cell.num 2, Cell.num 2, Cell.num 2]⟩
    (by decide)
  exact h.1 (by decide)

/-- Witness for claim C10: the all-missing numeric column [NaN, NaN]
with strategy median keeps both cells missing with fill NaN, and the
same column passes through handle_missing_values at threshold 1
unchanged. -/
theorem impute_all_missing_silent_noop_witness :
    impute_column ⟨Dtype.numeric, [Cell.na, Cell.na]⟩ "median" =
      .ok (⟨Dtype.numeric, [Cell.na, Cell.na]⟩,
        ⟨"float64", "median", 2, .fnum none, 2⟩) ∧
    handle_missing_values ⟨[("a", ⟨Dtype.numeric, [Cell.na, Cell.na]⟩)]⟩ 1
        "median" "mode" false =
      .ok (⟨[("a", ⟨Dtype.numeric, [Cell.na, Cell.na]⟩)]⟩,
        [("a", infoToRecord ⟨"float64", "median", 2, .fnum none, 2⟩)]) := by
  have h := impute_all_missing_silent_noop ⟨Dtype.numeric, [Cell.na, Cell.na]⟩
    "median" rfl (by decide) (Or.inl rfl)
  exact ⟨h.1, h.2 1 "mode" "a" (le_refl 1) (by decide)⟩

/-! ### Claim C7: mode imputation on categorical columns -/

theorem le_foldr_max (l : List ℕ) : ∀ x ∈ l, x ≤ l.foldr max 0 := by
  induction l with
  | nil =>
    intro x hx
    cases hx
  | cons a l ih =>
    intro x hx
    rcases List.mem_cons.mp hx with rfl | h
    · exact le_max_left _ _
    · exact le_trans (ih x h) (le_max_right _ _)

theorem foldr_max_mem (l : List ℕ) (h : l ≠ []) :
    l.foldr max 0 ∈ l ∨ l.foldr max 0 = 0 := by
  induction l with
  | nil => exact absurd rfl h
  | cons a l ih =>
    show max a (l.foldr max 0) ∈ a :: l ∨ max a (l.foldr max 0) = 0
    rcases le_total a (l.foldr max 0) with hle | hle
    · rw [max_eq_right hle]
      by_cases hl : l = []
      · subst hl
        right
        rfl
      · rcases ih hl with hm | h0
        · exact Or.inl (List.mem_cons_of_mem _ hm)
        · exact Or.inr h0
    · rw [max_eq_left hle]
      exact Or.inl (List.mem_cons_self _ _)

/-- The mode embedding picks a most frequent non-missing cell: it is a
member of the non-missing cells and its occurrence count dominates every
other cell's count. -/
theorem modeCell_spec (cells : List Cell) (h : dropNa cells ≠ []) :
    ∃ m, modeCell cells = some m ∧ m ∈ dropNa cells ∧
      ∀ c ∈ dropNa cells, (dropNa cells).count c ≤ (dropNa cells).count m := by
  obtain ⟨c0, hc0⟩ := List.exists_mem_of_ne_nil _ h
  have hmapne : (dropNa cells).map (fun c => (dropNa cells).count c) ≠ [] := by
    simpa using h
  have hcount1 : 1 ≤ (dropNa cells).count c0 := List.count_pos_iff.mpr hc0
  have hM1 : 1 ≤ ((dropNa cells).map (fun c => (dropNa cells).count c)).foldr max 0 :=
    le_trans hcount1 (le_foldr_max _ _ (List.mem_map.mpr ⟨c0, hc0, rfl⟩))
  have hMmem : ((dropNa cells).map (fun c => (dropNa cells).count c)).foldr max 0 ∈
      (dropNa cells).map (fun c => (dropNa cells).count c) :=
    (foldr_max_mem _ hmapne).resolve_right (by omega)
  obtain ⟨c1, hc1, hc1M⟩ := List.mem_map.mp hMmem
  have hcand : c1 ∈ modeCandidates cells := by
    rw [modeCandidates]
    exact List.mem_filter.mpr ⟨List.mem_dedup.mpr hc1, by simpa using hc1M⟩
  have hperm := List.perm_insertionSort
    (fun a b => cellLE a b = true) (modeCandidates cells)
  rcases hs : List.insertionSort (fun a b => cellLE a b = true) (modeCandidates cells)
    with _ | ⟨m, rest⟩
  · exfalso
    rw [hs] at hperm
    exact absurd (hperm.symm.mem_iff.mp hcand) (List.not_mem_nil c1)
  · have hmmode : modeCell cells = some m := by
      rw [modeCell, hs]
      rfl
    have hmcand : m ∈ modeCandidates cells := by
      apply hperm.mem_iff.mp
      rw [hs]
      exact List.mem_cons_self _ _
    have hmf := List.mem_filter.mp (by
      rw [modeCandidates] at hmcand
      exact hmcand)
    refine ⟨m, hmmode, List.mem_dedup.mp hmf.1, ?_⟩
    intro c hc
    have hmM : (dropNa cells).count m =
        ((dropNa cells).map (fun c => (dropNa cells).count c)).foldr max 0 := by
      simpa using hmf.2
    rw [hmM]
    exact le_foldr_max _ _ (List.mem_map.mpr ⟨c, hc, rfl⟩)

/-- Claim C7: on a categorical (object-dtype) column with strategy
"mode", impute_column succeeds; every cell of the returned column is a
string (astype(str) coerces the whole column uniformly); when the
column has no non-missing value at all the fill is the literal string
"missing"; otherwise the fill is a most frequent non-missing value,
every missing cell receiving it before the text coercion. -/
theorem impute_mode_fills (s : Series) (hdt : s.dtype = Dtype.obj) :
    ∃ s2 info, impute_column s "mode" = .ok (s2, info) ∧
      (∀ c ∈ s2.cells, ∃ txt, c = Cell.str txt) ∧
      (dropNa s.cells = [] →
        info.fill_value = .fstr "missing" ∧
        s2.cells = s.cells.map (cellAstype ∘ fun c =>
          if c.isna then Cell.str "missing" else c)) ∧
      (dropNa s.cells ≠ [] →
        ∃ m, modeCell s.cells = some m ∧ m ∈ dropNa s.cells ∧
          (∀ c ∈ dropNa s.cells, (dropNa s.cells).count c ≤ (dropNa s.cells).count m) ∧
          info.fill_value = .fstr (cellPyStr m) ∧
          s2.cells = s.cells.map (cellAstype ∘ fun c => if c.isna then m else c)) := by
  by_cases hd : dropNa s.cells = []
  · have heq : impute_column s "mode" =
        .ok (⟨Dtype.obj, s.cells.map (cellAstype ∘ fun c =>
            if c.isna then Cell.str "missing" else c)⟩,
          ⟨"object", "mode", s.cells.countP (fun c => c.isna), .fstr "missing",
            (s.cells.map (cellAstype ∘ fun c =>
              if c.isna then Cell.str "missing" else c)).countP (fun c => c.isna)⟩) := by
      simp [impute_column, hdt, hd, dtypeStr, cellPyStr]
    refine ⟨_, _, heq, ?_, fun _ => ⟨rfl, rfl⟩, fun hcon => absurd hd hcon⟩
    intro c hc
    rcases List.mem_map.mp hc with ⟨b, hb, rfl⟩
    exact ⟨_, rfl⟩
  · obtain ⟨m, hmm, hmd, hmax⟩ := modeCell_spec s.cells hd
    have heq : impute_column s "mode" =
        .ok (⟨Dtype.obj, s.cells.map (cellAstype ∘ fun c =>
            if c.isna then m else c)⟩,
          ⟨"object", "mode", s.cells.countP (fun c => c.isna), .fstr (cellPyStr m),
            (s.cells.map (cellAstype ∘ fun c =>
              if c.isna then m else c)).countP (fun c => c.isna)⟩) := by
      simp [impute_column, hdt, hd, hmm, dtypeStr]
    refine ⟨_, _, heq, ?_, fun hcon => absurd hcon hd, fun _ =>
      ⟨m, hmm, hmd, hmax, rfl, rfl⟩⟩
    intro c hc
    rcases List.mem_map.mp hc with ⟨b, hb, rfl⟩
    exact ⟨_, rfl⟩

/-- Witness for claim C7 at the spec's example ["x", "x", None]: the
missing cell is filled with the mode "x", the returned column is the
homogeneous string column ["x", "x", "x"], and the general conclusion
holds at this input. -/
theorem impute_mode_fills_witness :
    impute_column ⟨Dtype.obj, [Cell.str "x", Cell.str "x", Cell.na]⟩ "mode" =
      .ok (⟨Dtype.obj, [Cell.str "x", Cell.str "x", Cell.str "x"]⟩,
        ⟨"object", "mode", 1, .fstr "x", 0⟩) ∧
    (∃ s2 info,
      impute_column ⟨Dtype.obj, [Cell.str "x", Cell.str "x", Cell.na]⟩ "mode" =
        .ok (s2, info) ∧
      (∀ c ∈ s2.cells, ∃ txt, c = Cell.str txt) ∧
      (dropNa [Cell.str "x", Cell.str "x", Cell.na] = [] →
        info.fill_value = .fstr "missing" ∧
        s2.cells = [Cell.str "x", Cell.str "x", Cell.na].map (cellAstype ∘ fun c =>
          if c.isna then Cell.str "missing" else c)) ∧
      (dropNa [Cell.str "x", Cell.str "x", Cell.na] ≠ [] →
        ∃ m, modeCell [Cell.str "x", Cell.str "x", Cell.na] = some m ∧
          m ∈ dropNa [Cell.str "x", Cell.str "x", Cell.na] ∧
          (∀ c ∈ dropNa [Cell.str "x", Cell.str "x", Cell.na],
            (dropNa [Cell.str "x", Cell.str "x", Cell.na]).count c ≤
              (dropNa [Cell.str "x", Cell.str "x", Cell.na]).count m) ∧
          info.fill_value = .fstr (cellPyStr m) ∧
          s2.cells = [Cell.str "x", Cell.str "x", Cell.na].map (cellAstype ∘ fun c =>
            if c.isna then m else c))) :=
  ⟨by rfl, impute_mode_fills ⟨Dtype.obj, [Cell.str "x", Cell.str "x", Cell.na]⟩ rfl⟩

/-! ### Character-level lemmas for the column-name normalization -/

theorem char_ofNat_toNat {n : ℕ} (h1 : n < 55296) : (Char.ofNat n).toNat = n := by
  unfold Char.ofNat
  split
  · rfl
  · rename_i hv
    exact absurd (Or.inl h1) hv

theorem toLower_def (c : Char) :
    Char.toLower c =
      if c.toNat ≥ 65 ∧ c.toNat ≤ 90 then Char.ofNat (c.toNat + 32) else c := rfl

theorem isWhitespace_toLower (c : Char) (h : c.isWhitespace = false) :
    (Char.toLower c).isWhitespace = false := by
  rw [toLower_def]
  by_cases hc : c.toNat ≥ 65 ∧ c.toNat ≤ 90
  · rw [if_pos hc]
    have htn : (Char.ofNat (c.toNat + 32)).toNat = c.toNat + 32 :=
      char_ofNat_toNat (by omega)
    show (decide _ || decide _ || decide _ || decide _) = false
    simp only [Bool.or_eq_false_iff, decide_eq_false_iff_not]
    refine ⟨⟨⟨?_, ?_⟩, ?_⟩, ?_⟩
    · intro he
      have h32 : c.toNat + 32 = 32 := by
        have h0 := congrArg Char.toNat he
        rw [htn] at h0
        exact h0
      omega
    · intro he
      have h32 : c.toNat + 32 = 9 := by
        have h0 := congrArg Char.toNat he
        rw [htn] at h0
        exact h0
      omega
    · intro he
      have h32 : c.toNat + 32 = 13 := by
        have h0 := congrArg Char.toNat he
        rw [htn] at h0
        exact h0
      omega
    · intro he
      have h32 : c.toNat + 32 = 10 := by
        have h0 := congrArg Char.toNat he
        rw [htn] at h0
        exact h0
      omega
  · rw [if_neg hc]
    exact h

theorem toLower_toLower (c : Char) :
    Char.toLower (Char.toLower c) = Char.toLower c := by
  by_cases hc : c.toNat ≥ 65 ∧ c.toNat ≤ 90
  · have h1 : Char.toLower c = Char.ofNat (c.toNat + 32) := by
      rw [toLower_def, if_pos hc]
    have htn : (Char.ofNat (c.toNat + 32)).toNat = c.toNat + 32 :=
      char_ofNat_toNat (by omega)
    rw [h1, toLower_def, if_neg (by rw [htn]; omega)]
  · have h1 : Char.toLower c = c := by
      rw [toLower_def, if_neg hc]
    rw [h1, h1]

/-- The per-character action of the name normalization after the strip:
lowercase, then replace a space by an underscore. -/
def normChar (c : Char) : Char :=
  if Char.toLower c = ' ' then '_' else Char.toLower c

theorem isWhitespace_normChar (c : Char) (h : c.isWhitespace = false) :
    (normChar c).isWhitespace = false := by
  rw [normChar]
  by_cases hsp : Char.toLower c = ' '
  · rw [if_pos hsp]
    decide
  · rw [if_neg hsp]
    exact isWhitespace_toLower c h

theorem normChar_normChar (c : Char) : normChar (normChar c) = normChar c := by
  by_cases hsp : Char.toLower c = ' '
  · have h1 : normChar c = '_' := by
      rw [normChar, if_pos hsp]
    rw [h1]
    decide
  · have h1 : normChar c = Char.toLower c := by
      rw [normChar, if_neg hsp]
    rw [h1, normChar, toLower_toLower, if_neg hsp]

/-! ### Strip lemmas -/

theorem head?_dropWhile (p : Char → Bool) (l : List Char) :
    ∀ x ∈ (l.dropWhile p).head?, p x = false := by
  induction l with
  | nil =>
    intro x hx
    cases hx
  | cons a t ih =>
    intro x hx
    rw [List.dropWhile_cons] at hx
    by_cases hpa : p a = true
    · rw [if_pos hpa] at hx
      exact ih x hx
    · rw [if_neg hpa] at hx
      have hxa : a = x := by
        simpa using hx
      rw [← hxa]
      exact Bool.eq_false_iff.mpr hpa

theorem getLast?_dropWhile (p : Char → Bool) (l : List Char)
    (h : l.dropWhile p ≠ []) :
    (l.dropWhile p).getLast? = l.getLast? := by
  induction l with
  | nil => exact absurd rfl h
  | cons a t ih =>
    rw [List.dropWhile_cons]
    rw [List.dropWhile_cons] at h
    by_cases hpa : p a = true
    · rw [if_pos hpa]
      rw [if_pos hpa] at h
      have ht : t ≠ [] := by
        intro hnil
        rw [hnil] at h
        exact h rfl
      rcases t with _ | ⟨b, t2⟩
      · exact absurd rfl ht
      · rw [List.getLast?_cons_cons]
        exact ih h
    · rw [if_neg hpa]

theorem dropWhile_eq_self_of_head (p : Char → Bool) (l : List Char)
    (h : ∀ x ∈ l.head?, p x = false) :
    l.dropWhile p = l := by
  rcases l with _ | ⟨a, t⟩
  · rfl
  · have ha : p a = false := h a (by simp)
    simp [List.dropWhile_cons, ha]

theorem head?_stripChars (l : List Char) :
    ∀ x ∈ (stripChars l).head?, x.isWhitespace = false := by
  intro x hx
  rw [stripChars, List.head?_reverse] at hx
  rcases hne : (l.dropWhile Char.isWhitespace).reverse.dropWhile Char.isWhitespace
    with _ | ⟨a, t⟩
  · rw [hne] at hx
    cases hx
  · rw [getLast?_dropWhile _ _ (by rw [hne]; exact List.cons_ne_nil _ _),
      List.getLast?_reverse] at hx
    exact head?_dropWhile _ _ x hx

theorem getLast?_stripChars (l : List Char) :
    ∀ x ∈ (stripChars l).getLast?, x.isWhitespace = false := by
  intro x hx
  rw [stripChars, List.getLast?_reverse] at hx
  exact head?_dropWhile _ _ x hx

theorem stripChars_eq_self (l : List Char)
    (h1 : ∀ x ∈ l.head?, x.isWhitespace = false)
    (h2 : ∀ x ∈ l.getLast?, x.isWhitespace = false) :
    stripChars l = l := by
  rw [stripChars, dropWhile_eq_self_of_head _ _ h1,
    dropWhile_eq_self_of_head _ _ (by
      intro x hx
      rw [List.head?_reverse] at hx
      exact h2 x hx),
    List.reverse_reverse]

/-! ### Idempotence of the name normalization -/

theorem normNameL_eq_map (l : List Char) :
    normNameL l = (stripChars l).map normChar := by
  rw [normNameL, List.map_map]
  rfl

theorem normNameL_idem (l : List Char) :
    normNameL (normNameL l) = normNameL l := by
  have hhead : ∀ x ∈ (normNameL l).head?, x.isWhitespace = false := by
    intro x hx
    rw [normNameL_eq_map, List.head?_map] at hx
    rcases hh : (stripChars l).head? with _ | y
    · rw [hh] at hx
      cases hx
    · rw [hh] at hx
      have hxy : normChar y = x := by
        simpa using hx
      rw [← hxy]
      exact isWhitespace_normChar y (head?_stripChars l y (by rw [hh]; rfl))
  have hlast : ∀ x ∈ (normNameL l).getLast?, x.isWhitespace = false := by
    intro x hx
    rw [normNameL_eq_map, List.getLast?_map] at hx
    rcases hh : (stripChars l).getLast? with _ | y
    · rw [hh] at hx
      cases hx
    · rw [hh] at hx
      have hxy : normChar y = x := by
        simpa using hx
      rw [← hxy]
      exact isWhitespace_normChar y (getLast?_stripChars l y (by rw [hh]; rfl))
  calc normNameL (normNameL l)
      = (stripChars (normNameL l)).map normChar := normNameL_eq_map _
    _ = (normNameL l).map normChar := by
        rw [stripChars_eq_self _ hhead hlast]
    _ = ((stripChars l).map normChar).map normChar := by
        rw [normNameL_eq_map l]
    _ = (stripChars l).map normChar := by
        rw [List.map_map]
        exact List.map_eq_map_iff.mpr (fun a _ => normChar_normChar a)
    _ = normNameL l := (normNameL_eq_map l).symm

theorem normName_idem (s : String) : normName (normName s) = normName s :=
  congrArg String.mk (normNameL_idem s.data)

/-! ### Lemmas on the numeric coercion and the duplicate-row removal -/

theorem tryCoerce_exists_non_na (s : Series)
    (h : ∃ x ∈ s.cells, x.isna = false) :
    ∃ x ∈ (tryCoerce s).cells, x.isna = false := by
  simp only [tryCoerce]
  by_cases h1 : s.dtype = Dtype.obj
  · rw [if_pos h1]
    by_cases h2 : (s.cells.map coerceCell).length ≠ 0 ∧
        (s.cells.map coerceCell).length ≤
          2 * (s.cells.map coerceCell).countP (fun c => !c.isna)
    · rw [if_pos h2]
      have hpos : 0 < (s.cells.map coerceCell).countP (fun c => !c.isna) := by
        rcases h2 with ⟨hl, hle⟩
        by_contra hz
        push_neg at hz
        have h0 : (s.cells.map coerceCell).countP (fun c => !c.isna) = 0 := by
          omega
        rw [h0] at hle
        omega
      obtain ⟨x, hx, hxp⟩ := List.countP_pos_iff.mp hpos
      exact ⟨x, hx, by simpa using hxp⟩
    · rw [if_neg h2]
      exact h
  · rw [if_neg h1]
    exact h

theorem keptRows_pairwise (d : DataFrame) : (keptRows d).Pairwise (· < ·) :=
  List.Pairwise.sublist (List.filter_sublist _) (List.pairwise_lt_range _)

theorem keptRows_first {d : DataFrame} {j : ℕ} (h : j ∈ keptRows d) :
    ∀ i < j, rowAt d i ≠ rowAt d j := by
  intro i hij
  have hf := (List.mem_filter.mp h).2
  have hall := List.all_eq_true.mp hf i (List.mem_range.mpr hij)
  simpa using hall

theorem exists_kept (d : DataFrame) (i : ℕ) (hi : i < nRows d) :
    ∃ j ∈ keptRows d, rowAt d j = rowAt d i := by
  have hP : ∃ k, rowAt d k = rowAt d i := ⟨i, rfl⟩
  refine ⟨Nat.find hP, ?_, Nat.find_spec hP⟩
  apply List.mem_filter.mpr
  refine ⟨List.mem_range.mpr (lt_of_le_of_lt (Nat.find_min' hP rfl) hi), ?_⟩
  apply List.all_eq_true.mpr
  intro k hk
  have hkj : k < Nat.find hP := List.mem_range.mp hk
  have hnk := Nat.find_min hP hkj
  exact decide_eq_true (fun heq => hnk (heq.trans (Nat.find_spec hP)))

theorem getD_map_lt {α : Type} (idx : List ℕ) (f : ℕ → α) (dflt : α) (a : ℕ)
    (ha : a < idx.length) :
    (idx.map f).getD a dflt = f (idx.getD a 0) := by
  rw [List.getD_eq_getElem _ _ (by simpa using ha), List.getElem_map,
    List.getD_eq_getElem _ _ ha]

theorem dropDupRows_cols (d : DataFrame) :
    (dropDupRows d).cols = d.cols.map (fun p =>
      (p.1, ⟨p.2.dtype, (keptRows d).map (fun i => p.2.cells.getD i .na)⟩)) := rfl

theorem rowAt_dropDupRows (d : DataFrame) (a : ℕ) (ha : a < (keptRows d).length) :
    rowAt (dropDupRows d) a = rowAt d ((keptRows d).getD a 0) := by
  show (dropDupRows d).cols.map _ = d.cols.map _
  rw [dropDupRows_cols, List.map_map]
  exact List.map_eq_map_iff.mpr (fun p _ => getD_map_lt _ _ _ _ ha)

theorem dedup_rows_distinct (d : DataFrame) {a b : ℕ} (hab : a < b)
    (hb : b < (keptRows d).length) :
    rowAt (dropDupRows d) a ≠ rowAt (dropDupRows d) b := by
  have ha : a < (keptRows d).length := lt_trans hab hb
  rw [rowAt_dropDupRows _ _ ha, rowAt_dropDupRows _ _ hb]
  have hij : (keptRows d).getD a 0 < (keptRows d).getD b 0 := by
    have hp := keptRows_pairwise d
    rw [List.pairwise_iff_get] at hp
    have hlt := hp ⟨a, ha⟩ ⟨b, hb⟩ (Fin.mk_lt_mk.mpr hab)
    rw [List.getD_eq_getElem _ _ ha, List.getD_eq_getElem _ _ hb]
    simpa using hlt
  have hjmem : (keptRows d).getD b 0 ∈ keptRows d := by
    rw [List.getD_eq_getElem _ _ hb]
    exact List.getElem_mem _
  exact keptRows_first hjmem _ hij

theorem range_map_getD {α : Type} (l : List α) (dflt : α) :
    (List.range l.length).map (fun i => l.getD i dflt) = l := by
  apply List.ext_getElem
  · simp
  · intro n h1 h2
    rw [List.getElem_map, List.getElem_range, List.getD_eq_getElem _ _ h2]

theorem dropDupRows_eq_self (d : DataFrame)
    (hlen : ∀ p ∈ d.cols, p.2.cells.length = nRows d)
    (hdist : ∀ a b, a < b → b < nRows d → rowAt d a ≠ rowAt d b) :
    dropDupRows d = d := by
  have hkept : keptRows d = List.range (nRows d) := by
    rw [keptRows]
    apply List.filter_eq_self.mpr
    intro i hi
    apply List.all_eq_true.mpr
    intro j hj
    exact decide_eq_true
      (hdist j i (List.mem_range.mp hj) (List.mem_range.mp hi))
  rcases d with ⟨cols⟩
  show DataFrame.mk _ = DataFrame.mk cols
  congr 1
  apply map_self_of
  intro p hp
  have hc : (keptRows ⟨cols⟩).map (fun i => p.2.cells.getD i Cell.na) = p.2.cells := by
    rw [hkept, ← hlen p hp]
    exact range_map_getD _ _
  rw [hc]

theorem dropDupRows_idem (d : DataFrame) :
    dropDupRows (dropDupRows d) = dropDupRows d := by
  by_cases hd : d.cols = []
  · have h1 : dropDupRows d = ⟨[]⟩ := by
      show DataFrame.mk _ = _
      rw [hd]
      rfl
    rw [h1]
    rfl
  · have hfirst : nRows (dropDupRows d) = (keptRows d).length := by
      rcases hcols : d.cols with _ | ⟨q, rest⟩
      · exact absurd hcols hd
      · show nRows ⟨d.cols.map _⟩ = _
        rw [hcols]
        exact List.length_map _ _
    apply dropDupRows_eq_self
    · intro p hp
      rw [dropDupRows_cols] at hp
      rcases List.mem_map.mp hp with ⟨p0, hp0, rfl⟩
      rw [hfirst]
      exact List.length_map _ _
    · intro a b hab hb
      rw [hfirst] at hb
      exact dedup_rows_distinct d hab hb

theorem tryCoerce_length (s : Series) :
    (tryCoerce s).cells.length = s.cells.length := by
  simp only [tryCoerce]
  by_cases h1 : s.dtype = Dtype.obj
  · rw [if_pos h1]
    by_cases h2 : (s.cells.map coerceCell).length ≠ 0 ∧
        (s.cells.map coerceCell).length ≤
          2 * (s.cells.map coerceCell).countP (fun c => !c.isna)
    · rw [if_pos h2]
      exact List.length_map _ _
    · rw [if_neg h2]
  · rw [if_neg h1]

theorem not_all_isna_of_mem {l : List Cell} {x : Cell} (hx : x ∈ l)
    (hna : x.isna = false) :
    (!(l.all Cell.isna)) = true := by
  rcases hbool : l.all Cell.isna
  · rfl
  · have := List.all_eq_true.mp hbool x hx
    rw [hna] at this
    cases this

/-! ### Claim C5: idempotence of initial_cleaning -/

/-- Claim C5, counterexample: initial_cleaning is not idempotent.  On
the single text column [x, x, 1], the first run keeps the column as
text (only 1 of 3 values parses as a number, ratio 1/3 < 0.5) and then
removes the duplicate row, leaving [x, 1]; on its own output the
coercion ratio is now 1/2 ≥ 0.5, so the second run coerces the column
to numeric dtype (cells [NaN, 1]) — the two runs differ. -/
theorem initial_cleaning_not_idempotent :
    initial_cleaning (initial_cleaning
        ⟨[("c", ⟨Dtype.obj, [Cell.str "x", Cell.str "x", Cell.str "1"]⟩)]⟩) ≠
      initial_cleaning
        ⟨[("c", ⟨Dtype.obj, [Cell.str "x", Cell.str "x", Cell.str "1"]⟩)]⟩ ∧
    initial_cleaning
        ⟨[("c", ⟨Dtype.obj, [Cell.str "x", Cell.str "x", Cell.str "1"]⟩)]⟩ =
      ⟨[("c", ⟨Dtype.obj, [Cell.str "x", Cell.str "1"]⟩)]⟩ ∧
    (initial_cleaning (initial_cleaning
        ⟨[("c", ⟨Dtype.obj, [Cell.str "x", Cell.str "x", Cell.str "1"]⟩)]⟩)).cols.map
      (fun p => (p.1, p.2.dtype)) = [("c", Dtype.numeric)] :=
  ⟨by decide, by decide, by decide⟩

/-- Claim C5 (amended): initial_cleaning is idempotent on every table
with equal-length columns whose once-cleaned output triggers no further
numeric coercion (hypothesis hco, which the counterexample shows cannot
be dropped: removing duplicate rows can push an object column's
parsable ratio to at least 0.5).  Under that hypothesis the second run
leaves the names (already normalized), the columns (none all-missing),
the dtypes and the rows (no duplicates remain) unchanged. -/
theorem initial_cleaning_idempotent (df : DataFrame)
    (hlen : ∀ p ∈ df.cols, p.2.cells.length = nRows df)
    (hco : ∀ p ∈ (initial_cleaning df).cols, tryCoerce p.2 = p.2) :
    initial_cleaning (initial_cleaning df) = initial_cleaning df := by
  have hic : ∀ X : DataFrame, initial_cleaning X =
      dropDupRows ⟨((X.cols.map (fun p => (normName p.1, p.2))).filter
        (fun p => !(p.2.cells.all Cell.isna))).map (fun p => (p.1, tryCoerce p.2))⟩ :=
    fun X => rfl
  obtain ⟨D3, hD3⟩ : ∃ D3 : DataFrame, D3 =
      ⟨((df.cols.map (fun p => (normName p.1, p.2))).filter
        (fun p => !(p.2.cells.all Cell.isna))).map (fun p => (p.1, tryCoerce p.2))⟩ :=
    ⟨_, rfl⟩
  have hicdf : initial_cleaning df = dropDupRows D3 := by
    rw [hic df, ← hD3]
  have hlen3 : ∀ p3 ∈ D3.cols, p3.2.cells.length = nRows df := by
    intro p3 hp3
    rw [hD3] at hp3
    rcases List.mem_map.mp hp3 with ⟨p2, hp2, rfl⟩
    rcases List.mem_map.mp (List.mem_filter.mp hp2).1 with ⟨p0, hp0, rfl⟩
    show (tryCoerce p0.2).cells.length = nRows df
    rw [tryCoerce_length]
    exact hlen p0 hp0
  have hnr : D3.cols ≠ [] → nRows D3 = nRows df := by
    intro hne
    rcases hc : D3.cols with _ | ⟨q, rest⟩
    · exact absurd hc hne
    · have h1 : nRows D3 = q.2.cells.length := by
        simp only [nRows, hc]
      rw [h1]
      exact hlen3 q (by rw [hc]; exact List.mem_cons_self _ _)
  have hname : ∀ p ∈ (initial_cleaning df).cols, normName p.1 = p.1 := by
    intro p hp
    rw [hicdf, dropDupRows_cols] at hp
    rcases List.mem_map.mp hp with ⟨p3, hp3, rfl⟩
    rw [hD3] at hp3
    rcases List.mem_map.mp hp3 with ⟨p2, hp2, rfl⟩
    rcases List.mem_map.mp (List.mem_filter.mp hp2).1 with ⟨p0, hp0, rfl⟩
    show normName (normName p0.1) = normName p0.1
    exact normName_idem _
  have hB : ∀ p ∈ (initial_cleaning df).cols, (!(p.2.cells.all Cell.isna)) = true := by
    intro p hp
    rw [hicdf, dropDupRows_cols] at hp
    rcases List.mem_map.mp hp with ⟨p3, hp3, rfl⟩
    have hp3' := hp3
    rw [hD3] at hp3'
    rcases List.mem_map.mp hp3' with ⟨p2, hp2, hp23⟩
    have hkeep := (List.mem_filter.mp hp2).2
    have hx2 : ∃ x ∈ p2.2.cells, x.isna = false := by
      have hfalse : p2.2.cells.all Cell.isna = false := by
        rcases hbool : p2.2.cells.all Cell.isna
        · rfl
        · rw [hbool] at hkeep
          cases hkeep
      by_contra hno
      push_neg at hno
      have hall : p2.2.cells.all Cell.isna = true := by
        apply List.all_eq_true.mpr
        intro x hx
        rcases hb : x.isna
        · exact absurd hb (hno x hx)
        · rfl
      rw [hall] at hfalse
      cases hfalse
    obtain ⟨x3, hx3, hx3na⟩ := tryCoerce_exists_non_na p2.2 hx2
    have hx3m : x3 ∈ p3.2.cells := by
      rw [← hp23]
      exact hx3
    rcases List.mem_iff_getElem.mp hx3m with ⟨i, hi, hgx⟩
    have hilen : i < nRows D3 := by
      rw [hnr (by
        intro hnil
        rw [hnil] at hp3
        cases hp3)]
      have hl3 := hlen3 p3 hp3
      omega
    obtain ⟨j, hj, hrow⟩ := exists_kept D3 i hilen
    have hcomp : p3.2.cells.getD j Cell.na = p3.2.cells.getD i Cell.na :=
      List.map_eq_map_iff.mp hrow p3 hp3
    have hgetD : p3.2.cells.getD i Cell.na = x3 := by
      rw [List.getD_eq_getElem _ _ hi, hgx]
    apply not_all_isna_of_mem (List.mem_map.mpr ⟨j, hj, rfl⟩)
    rw [hcomp, hgetD]
    exact hx3na
  rw [hic (initial_cleaning df)]
  have e1 : (initial_cleaning df).cols.map (fun p => (normName p.1, p.2)) =
      (initial_cleaning df).cols := by
    apply map_self_of
    intro p hp
    rw [hname p hp]
  rw [e1]
  have e2 : (initial_cleaning df).cols.filter (fun p => !(p.2.cells.all Cell.isna)) =
      (initial_cleaning df).cols := List.filter_eq_self.mpr hB
  rw [e2]
  have e3 : (initial_cleaning df).cols.map (fun p => (p.1, tryCoerce p.2)) =
      (initial_cleaning df).cols := by
    apply map_self_of
    intro p hp
    rw [hco p hp]
  rw [e3]
  have e4 : (⟨(initial_cleaning df).cols⟩ : DataFrame) = initial_cleaning df := rfl
  rw [e4, hicdf]
  exact dropDupRows_idem D3

/-- Witness for the amended claim C5: the table with one text column
"A B" = [x, x, None] is cleaned to the column a_b = [x, None]; its
output triggers no further coercion, and running initial_cleaning again
changes nothing. -/
theorem initial_cleaning_idempotent_witness :
    initial_cleaning (initial_cleaning
        ⟨[("A B", ⟨Dtype.obj, [Cell.str "x", Cell.str "x", Cell.na]⟩)]⟩) =
      initial_cleaning
        ⟨[("A B", ⟨Dtype.obj, [Cell.str "x", Cell.str "x", Cell.na]⟩)]⟩ :=
  initial_cleaning_idempotent
    ⟨[("A B", ⟨Dtype.obj, [Cell.str "x", Cell.str "x", Cell.na]⟩)]⟩
    (by decide) (by decide)

end Clean
